import Mathlib

/-!
Shallow embedding of `src/llm_cfg/incremental_parser.py` (class `IncrementalParser`).

The driver code in `incremental_parser.py` is embedded faithfully; the external
collaborators it drives (the vendored lark lexer and interactive LALR parser,
which are not part of `src/`) are abstracted as parameters (`LexerModel`,
`ParserModel`) honouring the interface the spec describes for them.
Python's mutable `self` becomes an explicit `IPState` record threaded through
the functions; the two `while` loops become fuel-indexed structural recursions
(the driver always supplies enough fuel, as proved below); the `IndexError`
that `self.parser_token_seq[-1]` can raise becomes an `Option` result.
-/

namespace Syncode

/-- A lexer token: terminal type, literal value and character offsets
(lark `Token` carries `type`, `value`, `start_pos`, `end_pos`). -/
structure Token where
  type : String
  value : String
  start_pos : Nat
  end_pos : Nat
deriving Repr, DecidableEq

/-- Modelled from the spec: equality of lark tokens (the `!=` used at
`incremental_parser.py:105` dispatches to `Token.__eq__` of the vendored
`larkm` library, which is not under `src/`) compares only `(type, value)`;
the character offsets are ignored. -/
def tokenEq (t1 t2 : Token) : Bool :=
  t1.type == t2.type && t1.value == t2.value

/-- The three remainder classifications of `parse_result.RemainderState`. -/
inductive RemainderState where
  | COMPLETE
  | INCOMPLETE
  | MAYBE_COMPLETE
deriving Repr, DecidableEq

/-- The value returned by `get_acceptable_next_terminals`
(`parse_result.ParseResult`, constructed at `incremental_parser.py:156`). -/
structure ParseResult where
  cur_ac_terminals : Option (List String)
  next_ac_terminals : Option (List String)
  remainder : String
  remainder_state : RemainderState
  next_ac_indents : Option (List Int)
deriving Repr, DecidableEq

/-- Modelled from the spec: the interactive LALR parser interface (§4.2).
`feed` advances the machine by one terminal and is all-or-nothing: it returns
`none` in place of raising `UnexpectedToken`, leaving the state unchanged.
`accepts` is pure.  `init` is the state of `parse_interactive('')`. -/
structure ParserModel (σ : Type) where
  init : σ
  feed : σ → Token → Option σ
  accepts : σ → List String

/-- State of the lark basic lexer thread: the full text and
`line_ctr.char_pos`, the character position reached so far. -/
structure LexerState where
  text : String
  char_pos : Nat
deriving Repr, DecidableEq

/-- Modelled from the spec: the grammar's basic lexer (§4.1).  `next_token`
produces the next token and the advanced lexer state, or `none` in place of
raising `UnexpectedCharacters`/`EOFError`, leaving the state unchanged. -/
structure LexerModel where
  next_token : LexerState → Option (Token × LexerState)

/-- One entry of `cur_pos_to_parser_state`, stored by `_store_parser_state`:
`(parser_state, cur_ac_terminals, next_ac_terminals, indent_levels, dedent_queue)`. -/
structure Snapshot (σ : Type) where
  parser_state : σ
  cur_ac_terminals : Option (List String)
  next_ac_terminals : Option (List String)
  indent_levels : Option (List Nat)
  dedent_queue : List Token
deriving DecidableEq

/-- The mutable fields of an `IncrementalParser` session (`__init__`,
`incremental_parser.py:16-43`).  `cur_pos_to_parser_state` is the snapshot
map, total as `Nat → Option _`. -/
structure IPState (σ : Type) where
  cur_ac_terminals : Option (List String)
  next_ac_terminals : Option (List String)
  cur_pos : Nat
  lexer_pos : Nat
  dedent_queue : List Token
  interactive : σ
  parser_token_seq : List Token
  prev_lexer_tokens : List Token
  cur_pos_to_parser_state : Nat → Option (Snapshot σ)

/-- The freshly constructed session: both accept sets are `None`, positions 0,
queues and token lists empty, no snapshots, parser at its initial state. -/
def init_state (pm : ParserModel σ) : IPState σ :=
  { cur_ac_terminals := none
    next_ac_terminals := none
    cur_pos := 0
    lexer_pos := 0
    dedent_queue := []
    interactive := pm.init
    parser_token_seq := []
    prev_lexer_tokens := []
    cur_pos_to_parser_state := fun _ => none }

/-- `_store_parser_state` (`incremental_parser.py:48-58`): records the snapshot
`(parser_state, next_ac_terminals, accepts, indent_levels, dedent_queue)` at
`pos` and overwrites the live accept sets with (copies of) the same two sets.
Python's deepcopies are identities under value semantics. -/
def store_parser_state (s : IPState σ) (pos : Nat) (parser_state : σ)
    (accepts : Option (List String)) (indent_levels : Option (List Nat)) : IPState σ :=
  let cur_ac_terminals := s.next_ac_terminals
  let next_ac_terminals := accepts
  { s with
    cur_pos_to_parser_state := fun i =>
      if i = pos then
        some ⟨parser_state, cur_ac_terminals, next_ac_terminals, indent_levels, s.dedent_queue⟩
      else s.cur_pos_to_parser_state i
    cur_ac_terminals := cur_ac_terminals
    next_ac_terminals := next_ac_terminals }

/-- `_restore_parser_state` (`incremental_parser.py:60-73`): copies the stored
snapshot back into the live fields.  The base class never stores
`indent_levels`, so the `indent_level` branch is dead here.  A missing key
would be a `KeyError` in Python; the only call site guards it with an assert,
and we model the impossible branch as a no-op. -/
def restore_parser_state (s : IPState σ) (pos : Nat) : IPState σ :=
  match s.cur_pos_to_parser_state pos with
  | none => s
  | some snap =>
    { s with
      interactive := snap.parser_state
      dedent_queue := snap.dedent_queue
      cur_ac_terminals := snap.cur_ac_terminals
      next_ac_terminals := snap.next_ac_terminals }

/-- The scan of `_restore_recent_parser_state` (`incremental_parser.py:103-108`):
walk the two token lists in lockstep from index `i`, stop at the first
`tokenEq` mismatch (or at the end of the shorter list), and remember the last
visited index that has a snapshot; `acc` is `max_matching_index` so far
(`none` standing for Python's `-1`). -/
def max_matching_index (snaps : Nat → Option (Snapshot σ)) :
    List Token → List Token → Nat → Option Nat → Option Nat
  | p :: ps, t :: ts, i, acc =>
    if tokenEq p t then
      max_matching_index snaps ps ts (i + 1) (if (snaps i).isSome then some i else acc)
    else acc
  | _, _, _, acc => acc

/-- `_restore_recent_parser_state` (`incremental_parser.py:99-113`): if the
scan found a usable index `j`, set `cur_pos := j + 1` and restore snapshot `j`;
otherwise (`max_matching_index == -1`) the session is left untouched. -/
def restore_recent_parser_state (s : IPState σ) (lexer_tokens : List Token) : IPState σ :=
  match max_matching_index s.cur_pos_to_parser_state s.prev_lexer_tokens lexer_tokens 0 none with
  | none => s
  | some j => restore_parser_state { s with cur_pos := j + 1 } j

/-- The `while` loop of `_lex_code` (`incremental_parser.py:85-94`): while
`char_pos < len(text)`, ask the lexer for the next token and append it;
`none` models the swallowed `UnexpectedCharacters`/`EOFError`.  The loop is
fuel-indexed; `lex_code` supplies `len(text)` which suffices whenever
`next_token` advances `char_pos`. -/
def lex_loop (lm : LexerModel) : Nat → LexerState → List Token → List Token × LexerState
  | 0, st, toks => (toks, st)
  | fuel + 1, st, toks =>
    if st.char_pos < st.text.length then
      match lm.next_token st with
      | none => (toks, st)
      | some (t, st2) => lex_loop lm fuel st2 (toks ++ [t])
    else (toks, st)

/-- `_lex_code` (`incremental_parser.py:75-97`): lex the whole buffer, never
propagating a lexer exception, and return the tokens together with the final
`char_pos` (which the driver stores into `self.lexer_pos`). -/
def lex_code (lm : LexerModel) (code : String) : List Token × Nat :=
  let r := lex_loop lm code.length ⟨code, 0⟩ []
  (r.1, r.2.char_pos)

/-- The `try`/`while` feed loop of `get_acceptable_next_terminals`
(`incremental_parser.py:134-148`): while `cur_pos < len(lexer_tokens)`, take
the token at `cur_pos`, advance `cur_pos`, append the token to
`parser_token_seq`, feed it, and on success store a snapshot at `cur_pos - 1`
with the accepts set just computed.  A `none` from `feed` is the swallowed
`UnexpectedToken`: the loop stops with `cur_pos` already advanced and the
rejected token already appended.  Fuel-indexed; the driver passes
`len(lexer_tokens)`, which always suffices since each iteration increments
`cur_pos`. -/
def parse_loop (pm : ParserModel σ) (lexer_tokens : List Token) :
    Nat → IPState σ → IPState σ
  | 0, s => s
  | fuel + 1, s =>
    match lexer_tokens[s.cur_pos]? with
    | none => s
    | some token =>
      let s1 : IPState σ :=
        { s with
          cur_pos := s.cur_pos + 1
          parser_token_seq := s.parser_token_seq ++ [token] }
      match pm.feed s.interactive token with
      | none => s1
      | some st2 =>
        parse_loop pm lexer_tokens fuel
          (store_parser_state { s1 with interactive := st2 } (s1.cur_pos - 1) st2
            (some (pm.accepts st2)) none)

/-- `_get_remainder` (`incremental_parser.py:158-170`).  `none` models the
`IndexError` that `self.parser_token_seq[-1]` raises when the whole buffer was
consumed but no token was ever appended.  `lstrip(' ')` strips spaces only. -/
def get_remainder (s : IPState σ) (code : String) : Option (RemainderState × String) :=
  if s.lexer_pos < code.length then
    let current_term_str := (code.drop s.lexer_pos).dropWhile (fun c => c == ' ')
    if current_term_str = "" then some (RemainderState.COMPLETE, current_term_str)
    else some (RemainderState.INCOMPLETE, current_term_str)
  else
    match s.parser_token_seq.getLast? with
    | none => none
    | some tok => some (RemainderState.MAYBE_COMPLETE, tok.value)

/-- `get_acceptable_next_terminals` (`incremental_parser.py:116-156`): lex the
buffer (recording `lexer_pos`), restore the most recent matching snapshot,
record the new token list as `prev_lexer_tokens`, run the feed loop, classify
the remainder and build the `ParseResult` (with `next_ac_indents = None` in
the base class).  The final session state is returned alongside. -/
def get_acceptable_next_terminals (pm : ParserModel σ) (lm : LexerModel)
    (s : IPState σ) (partial_code : String) : Option ParseResult × IPState σ :=
  let lexed := lex_code lm partial_code
  let s0 : IPState σ := { s with lexer_pos := lexed.2 }
  let s1 := restore_recent_parser_state s0 lexed.1
  let s2 : IPState σ := { s1 with prev_lexer_tokens := lexed.1 }
  let s3 := parse_loop pm lexed.1 lexed.1.length s2
  match get_remainder s3 partial_code with
  | none => (none, s3)
  | some rc =>
    (some ⟨s3.cur_ac_terminals, s3.next_ac_terminals, rc.2, rc.1, none⟩, s3)

/-! ### Reference functions used only to state specifications -/

/-- Number of leading tokens of `l` the parser consumes without error starting
from `st` (the loop stops at the first rejected token). -/
def feed_count (pm : ParserModel σ) : σ → List Token → Nat
  | _, [] => 0
  | st, t :: ts =>
    match pm.feed st t with
    | none => 0
    | some st2 => feed_count pm st2 ts + 1

/-- Parser state after consuming the successful prefix of `l` from `st`. -/
def feed_state (pm : ParserModel σ) : σ → List Token → σ
  | st, [] => st
  | st, t :: ts =>
    match pm.feed st t with
    | none => st
    | some st2 => feed_state pm st2 ts

/-- Length of the longest common prefix of two token lists under `tokenEq`. -/
def matchedLen : List Token → List Token → Nat
  | p :: ps, t :: ts => if tokenEq p t then matchedLen ps ts + 1 else 0
  | _, _ => 0

/-- `LexChain lm st toks stF`: from lexer state `st`, successive `next_token`
calls emit exactly `toks` and end in state `stF`. -/
def LexChain (lm : LexerModel) : LexerState → List Token → LexerState → Prop
  | st, [], stF => st = stF
  | st, t :: ts, stF => ∃ st2, lm.next_token st = some (t, st2) ∧ LexChain lm st2 ts stF

/-- The session state produced by one successful iteration of the feed loop:
`cur_pos` advanced, token appended, parser moved to `st2`, snapshot stored. -/
def feed_step (pm : ParserModel σ) (s : IPState σ) (tok : Token) (st2 : σ) : IPState σ :=
  store_parser_state
    { s with
      cur_pos := s.cur_pos + 1
      parser_token_seq := s.parser_token_seq ++ [tok]
      interactive := st2 }
    s.cur_pos st2 (some (pm.accepts st2)) none

/-- The session state at the end of a `get_acceptable_next_terminals` call:
lex, set `lexer_pos`, restore the most recent matching snapshot, record
`prev_lexer_tokens`, run the feed loop. -/
def advance_state (pm : ParserModel σ) (lm : LexerModel) (s : IPState σ)
    (partial_code : String) : IPState σ :=
  parse_loop pm (lex_code lm partial_code).1 (lex_code lm partial_code).1.length
    { restore_recent_parser_state { s with lexer_pos := (lex_code lm partial_code).2 }
        (lex_code lm partial_code).1 with
      prev_lexer_tokens := (lex_code lm partial_code).1 }

/-! ### Concrete instances used to exercise the embedding -/

/-- A token of terminal type `A`. -/
def tokA : Token := ⟨"A", "a", 0, 1⟩

/-- The same `(type, value)` as `tokA` at a different character offset. -/
def tokAshift : Token := ⟨"A", "a", 3, 4⟩

/-- A token of terminal type `A` starting at offset 1. -/
def tokA1 : Token := ⟨"A", "a", 1, 2⟩

/-- A token of terminal type `B` starting at offset 0. -/
def tokB0 : Token := ⟨"B", "b", 0, 1⟩

/-- A token of terminal type `B` starting at offset 1. -/
def tokB1 : Token := ⟨"B", "b", 1, 2⟩

/-- A token of a terminal type no toy grammar accepts. -/
def tokX : Token := ⟨"X", "x", 0, 1⟩

/-- Toy interactive parser accepting any number of `A` terminals. -/
def pmA : ParserModel Nat :=
  ⟨0, fun st t => if t.type == "A" then some (st + 1) else none, fun _ => ["A"]⟩

/-- Toy interactive parser rejecting every terminal. -/
def pmRej : ParserModel Nat :=
  ⟨0, fun _ _ => none, fun _ => ["A"]⟩

/-- Toy interactive parser accepting a single `B` terminal from its initial
state and nothing else. -/
def pmB : ParserModel Nat :=
  ⟨0, fun st t => if st == 0 && t.type == "B" then some 1 else none,
    fun st => if st == 0 then ["B"] else ["END"]⟩

/-- Toy lexer: the characters `a` and `b` lex to one-character tokens of
types `A` and `B`; any other character stops the lexer. -/
def toyLM : LexerModel :=
  ⟨fun st =>
    match st.text.toList[st.char_pos]? with
    | some c =>
      if c == 'a' then
        some (⟨"A", "a", st.char_pos, st.char_pos + 1⟩, ⟨st.text, st.char_pos + 1⟩)
      else if c == 'b' then
        some (⟨"B", "b", st.char_pos, st.char_pos + 1⟩, ⟨st.text, st.char_pos + 1⟩)
      else none
    | none => none⟩

/-- A snapshot with uninteresting content, for concrete session states. -/
def snapEx : Snapshot Nat := ⟨9, none, none, none, []⟩

/-- A concrete mid-session state: two tokens already parsed (snapshots at
indices 0 and 1, `cur_pos = 2`), parser in state `7`. -/
def sEx : IPState Nat :=
  ⟨some ["A"], some ["A"], 2, 2, [], 7, [tokA, tokA1], [tokA, tokA1],
    fun i => if i < 2 then some snapEx else none⟩

/-- A concrete state whose lexer consumed a one-character buffer entirely and
whose `parser_token_seq` is `[tokA]`. -/
def sW4 : IPState Nat := ⟨none, none, 0, 1, [], 0, [tokA], [], fun _ => none⟩

/-- A concrete fresh-like state whose `lexer_pos` already records that a
two-character buffer was fully lexed. -/
def sW10 : IPState Nat := ⟨none, none, 0, 2, [], 0, [], [], fun _ => none⟩

/-! ### Projections of `feed_step` -/

@[simp] theorem feed_step_cur_ac (pm : ParserModel σ) (s : IPState σ) (tok : Token) (st2 : σ) :
    (feed_step pm s tok st2).cur_ac_terminals = s.next_ac_terminals := rfl

@[simp] theorem feed_step_next_ac (pm : ParserModel σ) (s : IPState σ) (tok : Token) (st2 : σ) :
    (feed_step pm s tok st2).next_ac_terminals = some (pm.accepts st2) := rfl

@[simp] theorem feed_step_cur_pos (pm : ParserModel σ) (s : IPState σ) (tok : Token) (st2 : σ) :
    (feed_step pm s tok st2).cur_pos = s.cur_pos + 1 := rfl

@[simp] theorem feed_step_lexer_pos (pm : ParserModel σ) (s : IPState σ) (tok : Token) (st2 : σ) :
    (feed_step pm s tok st2).lexer_pos = s.lexer_pos := rfl

@[simp] theorem feed_step_dedent (pm : ParserModel σ) (s : IPState σ) (tok : Token) (st2 : σ) :
    (feed_step pm s tok st2).dedent_queue = s.dedent_queue := rfl

@[simp] theorem feed_step_interactive (pm : ParserModel σ) (s : IPState σ) (tok : Token) (st2 : σ) :
    (feed_step pm s tok st2).interactive = st2 := rfl

@[simp] theorem feed_step_seq (pm : ParserModel σ) (s : IPState σ) (tok : Token) (st2 : σ) :
    (feed_step pm s tok st2).parser_token_seq = s.parser_token_seq ++ [tok] := rfl

@[simp] theorem feed_step_prev (pm : ParserModel σ) (s : IPState σ) (tok : Token) (st2 : σ) :
    (feed_step pm s tok st2).prev_lexer_tokens = s.prev_lexer_tokens := rfl

theorem feed_step_snaps (pm : ParserModel σ) (s : IPState σ) (tok : Token) (st2 : σ) (i : Nat) :
    (feed_step pm s tok st2).cur_pos_to_parser_state i =
      if i = s.cur_pos then
        some ⟨st2, s.next_ac_terminals, some (pm.accepts st2), none, s.dedent_queue⟩
      else s.cur_pos_to_parser_state i := rfl

/-! ### Unfolding the feed loop -/

theorem parse_loop_zero (pm : ParserModel σ) (tokens : List Token) (s : IPState σ) :
    parse_loop pm tokens 0 s = s := rfl

theorem parse_loop_none (pm : ParserModel σ) (tokens : List Token) (fuel : Nat) (s : IPState σ)
    (h : tokens[s.cur_pos]? = none) : parse_loop pm tokens (fuel + 1) s = s := by
  simp [parse_loop, h]

theorem parse_loop_fail (pm : ParserModel σ) (tokens : List Token) (fuel : Nat) (s : IPState σ)
    (tok : Token) (hget : tokens[s.cur_pos]? = some tok)
    (hfail : pm.feed s.interactive tok = none) :
    parse_loop pm tokens (fuel + 1) s =
      { s with cur_pos := s.cur_pos + 1, parser_token_seq := s.parser_token_seq ++ [tok] } := by
  simp [parse_loop, hget, hfail]

theorem parse_loop_feed (pm : ParserModel σ) (tokens : List Token) (fuel : Nat) (s : IPState σ)
    (tok : Token) (st2 : σ) (hget : tokens[s.cur_pos]? = some tok)
    (hfeed : pm.feed s.interactive tok = some st2) :
    parse_loop pm tokens (fuel + 1) s = parse_loop pm tokens fuel (feed_step pm s tok st2) := by
  simp [parse_loop, hget, hfeed, feed_step, store_parser_state]

/-! ### Small facts about `feed_count`, `feed_state` and `List.drop` -/

theorem drop_of_getElem_none (tokens : List Token) (n : Nat) (h : tokens[n]? = none) :
    tokens.drop n = [] :=
  List.drop_eq_nil_of_le (List.getElem?_eq_none_iff.mp h)

theorem drop_of_getElem_some (tokens : List Token) (n : Nat) (tok : Token)
    (h : tokens[n]? = some tok) : tokens.drop n = tok :: tokens.drop (n + 1) := by
  obtain ⟨hn, he⟩ := List.getElem?_eq_some.mp h
  rw [List.drop_eq_getElem_cons hn, he]

theorem feed_count_le (pm : ParserModel σ) : ∀ (l : List Token) (st : σ),
    feed_count pm st l ≤ l.length := by
  intro l
  induction l with
  | nil => intro st; simp [feed_count]
  | cons t ts ih =>
    intro st
    cases hf : pm.feed st t with
    | none => simp [feed_count, hf]
    | some st2 =>
      simp only [feed_count, hf, List.length_cons]
      exact Nat.succ_le_succ (ih st2)

theorem feed_state_of_count_zero (pm : ParserModel σ) (l : List Token) (st : σ)
    (h : feed_count pm st l = 0) : feed_state pm st l = st := by
  cases l with
  | nil => rfl
  | cons t ts =>
    cases hf : pm.feed st t with
    | none => simp [feed_state, hf]
    | some st2 => simp [feed_count, hf] at h

/-! ### Feed-loop characterization

In each of the following, `k` is `feed_count` of the tokens still to feed:
the number of successful `feed` calls the loop will make.  The fuel hypothesis
`tokens.length ≤ s.cur_pos + fuel` is satisfied by the driver, which passes
`fuel = tokens.length`. -/

theorem parse_loop_lexer_pos (pm : ParserModel σ) (tokens : List Token) :
    ∀ (fuel : Nat) (s : IPState σ), (parse_loop pm tokens fuel s).lexer_pos = s.lexer_pos := by
  intro fuel
  induction fuel with
  | zero => intro s; rfl
  | succ fuel ih =>
    intro s
    cases hget : tokens[s.cur_pos]? with
    | none => rw [parse_loop_none pm tokens fuel s hget]
    | some tok =>
      cases hfeed : pm.feed s.interactive tok with
      | none => rw [parse_loop_fail pm tokens fuel s tok hget hfeed]
      | some st2 => rw [parse_loop_feed pm tokens fuel s tok st2 hget hfeed, ih]; rfl

theorem parse_loop_prev (pm : ParserModel σ) (tokens : List Token) :
    ∀ (fuel : Nat) (s : IPState σ),
      (parse_loop pm tokens fuel s).prev_lexer_tokens = s.prev_lexer_tokens := by
  intro fuel
  induction fuel with
  | zero => intro s; rfl
  | succ fuel ih =>
    intro s
    cases hget : tokens[s.cur_pos]? with
    | none => rw [parse_loop_none pm tokens fuel s hget]
    | some tok =>
      cases hfeed : pm.feed s.interactive tok with
      | none => rw [parse_loop_fail pm tokens fuel s tok hget hfeed]
      | some st2 => rw [parse_loop_feed pm tokens fuel s tok st2 hget hfeed, ih]; rfl

theorem parse_loop_dedent (pm : ParserModel σ) (tokens : List Token) :
    ∀ (fuel : Nat) (s : IPState σ),
      (parse_loop pm tokens fuel s).dedent_queue = s.dedent_queue := by
  intro fuel
  induction fuel with
  | zero => intro s; rfl
  | succ fuel ih =>
    intro s
    cases hget : tokens[s.cur_pos]? with
    | none => rw [parse_loop_none pm tokens fuel s hget]
    | some tok =>
      cases hfeed : pm.feed s.interactive tok with
      | none => rw [parse_loop_fail pm tokens fuel s tok hget hfeed]
      | some st2 => rw [parse_loop_feed pm tokens fuel s tok st2 hget hfeed, ih]; rfl

theorem parse_loop_interactive (pm : ParserModel σ) (tokens : List Token) :
    ∀ (fuel : Nat) (s : IPState σ), tokens.length ≤ s.cur_pos + fuel →
      (parse_loop pm tokens fuel s).interactive =
        feed_state pm s.interactive (tokens.drop s.cur_pos) := by
  intro fuel
  induction fuel with
  | zero =>
    intro s hfuel
    rw [parse_loop_zero, List.drop_eq_nil_of_le (by omega)]
    rfl
  | succ fuel ih =>
    intro s hfuel
    cases hget : tokens[s.cur_pos]? with
    | none =>
      rw [parse_loop_none pm tokens fuel s hget, drop_of_getElem_none tokens _ hget]
      rfl
    | some tok =>
      rw [drop_of_getElem_some tokens _ tok hget]
      cases hfeed : pm.feed s.interactive tok with
      | none =>
        rw [parse_loop_fail pm tokens fuel s tok hget hfeed]
        simp [feed_state, hfeed]
      | some st2 =>
        rw [parse_loop_feed pm tokens fuel s tok st2 hget hfeed]
        rw [ih (feed_step pm s tok st2) (by simp; omega)]
        simp [feed_state, hfeed]

theorem parse_loop_cur_pos (pm : ParserModel σ) (tokens : List Token) :
    ∀ (fuel : Nat) (s : IPState σ), tokens.length ≤ s.cur_pos + fuel →
      (parse_loop pm tokens fuel s).cur_pos =
        s.cur_pos + min (feed_count pm s.interactive (tokens.drop s.cur_pos) + 1)
          (tokens.drop s.cur_pos).length := by
  intro fuel
  induction fuel with
  | zero =>
    intro s hfuel
    rw [parse_loop_zero, List.drop_eq_nil_of_le (by omega)]
    rfl
  | succ fuel ih =>
    intro s hfuel
    cases hget : tokens[s.cur_pos]? with
    | none =>
      rw [parse_loop_none pm tokens fuel s hget, drop_of_getElem_none tokens _ hget]
      rfl
    | some tok =>
      rw [drop_of_getElem_some tokens _ tok hget]
      cases hfeed : pm.feed s.interactive tok with
      | none =>
        rw [parse_loop_fail pm tokens fuel s tok hget hfeed]
        simp [feed_count, hfeed]
      | some st2 =>
        rw [parse_loop_feed pm tokens fuel s tok st2 hget hfeed]
        rw [ih (feed_step pm s tok st2) (by simp; omega)]
        simp only [feed_step_cur_pos, feed_step_interactive, feed_count, hfeed,
          List.length_cons, Nat.succ_min_succ]
        omega

theorem parse_loop_seq (pm : ParserModel σ) (tokens : List Token) :
    ∀ (fuel : Nat) (s : IPState σ), tokens.length ≤ s.cur_pos + fuel →
      (parse_loop pm tokens fuel s).parser_token_seq =
        s.parser_token_seq ++
          (tokens.drop s.cur_pos).take (feed_count pm s.interactive (tokens.drop s.cur_pos) + 1) := by
  intro fuel
  induction fuel with
  | zero =>
    intro s hfuel
    rw [parse_loop_zero, List.drop_eq_nil_of_le (by omega)]
    simp
  | succ fuel ih =>
    intro s hfuel
    cases hget : tokens[s.cur_pos]? with
    | none =>
      rw [parse_loop_none pm tokens fuel s hget, drop_of_getElem_none tokens _ hget]
      simp
    | some tok =>
      rw [drop_of_getElem_some tokens _ tok hget]
      cases hfeed : pm.feed s.interactive tok with
      | none =>
        rw [parse_loop_fail pm tokens fuel s tok hget hfeed]
        simp [feed_count, hfeed]
      | some st2 =>
        rw [parse_loop_feed pm tokens fuel s tok st2 hget hfeed]
        rw [ih (feed_step pm s tok st2) (by simp; omega)]
        simp [feed_count, hfeed, List.append_assoc]

theorem parse_loop_snaps_lt (pm : ParserModel σ) (tokens : List Token) :
    ∀ (fuel : Nat) (s : IPState σ) (i : Nat), i < s.cur_pos →
      (parse_loop pm tokens fuel s).cur_pos_to_parser_state i =
        s.cur_pos_to_parser_state i := by
  intro fuel
  induction fuel with
  | zero => intro s i hi; rfl
  | succ fuel ih =>
    intro s i hi
    cases hget : tokens[s.cur_pos]? with
    | none => rw [parse_loop_none pm tokens fuel s hget]
    | some tok =>
      cases hfeed : pm.feed s.interactive tok with
      | none => rw [parse_loop_fail pm tokens fuel s tok hget hfeed]
      | some st2 =>
        rw [parse_loop_feed pm tokens fuel s tok st2 hget hfeed]
        rw [ih (feed_step pm s tok st2) i (by simp; omega)]
        rw [feed_step_snaps]
        simp [Nat.ne_of_lt hi]

theorem parse_loop_snaps_isSome (pm : ParserModel σ) (tokens : List Token) :
    ∀ (fuel : Nat) (s : IPState σ), tokens.length ≤ s.cur_pos + fuel →
      ∀ i, s.cur_pos ≤ i →
        i < s.cur_pos + feed_count pm s.interactive (tokens.drop s.cur_pos) →
        ((parse_loop pm tokens fuel s).cur_pos_to_parser_state i).isSome := by
  intro fuel
  induction fuel with
  | zero =>
    intro s hfuel i hi1 hi2
    rw [List.drop_eq_nil_of_le (by omega)] at hi2
    simp [feed_count] at hi2
    omega
  | succ fuel ih =>
    intro s hfuel i hi1 hi2
    cases hget : tokens[s.cur_pos]? with
    | none =>
      rw [drop_of_getElem_none tokens _ hget] at hi2
      simp [feed_count] at hi2
      omega
    | some tok =>
      rw [drop_of_getElem_some tokens _ tok hget] at hi2
      cases hfeed : pm.feed s.interactive tok with
      | none => simp [feed_count, hfeed] at hi2; omega
      | some st2 =>
        rw [parse_loop_feed pm tokens fuel s tok st2 hget hfeed]
        simp only [feed_count, hfeed] at hi2
        rcases Nat.eq_or_lt_of_le hi1 with heq | hlt
        · rw [parse_loop_snaps_lt pm tokens fuel (feed_step pm s tok st2) i (by simp; omega)]
          rw [feed_step_snaps]
          simp [← heq]
        · have := ih (feed_step pm s tok st2) (by simp; omega) i (by simp; omega)
          apply this
          simp only [feed_step_cur_pos, feed_step_interactive]
          omega

theorem parse_loop_snaps_none (pm : ParserModel σ) (tokens : List Token) :
    ∀ (fuel : Nat) (s : IPState σ), tokens.length ≤ s.cur_pos + fuel →
      (∀ j, s.cur_pos ≤ j → s.cur_pos_to_parser_state j = none) →
      ∀ i, s.cur_pos + feed_count pm s.interactive (tokens.drop s.cur_pos) ≤ i →
        (parse_loop pm tokens fuel s).cur_pos_to_parser_state i = none := by
  intro fuel
  induction fuel with
  | zero =>
    intro s hfuel hpre i hi
    rw [parse_loop_zero]
    exact hpre i (by omega)
  | succ fuel ih =>
    intro s hfuel hpre i hi
    cases hget : tokens[s.cur_pos]? with
    | none =>
      rw [parse_loop_none pm tokens fuel s hget]
      exact hpre i (by omega)
    | some tok =>
      cases hfeed : pm.feed s.interactive tok with
      | none =>
        rw [parse_loop_fail pm tokens fuel s tok hget hfeed]
        exact hpre i (by omega)
      | some st2 =>
        rw [drop_of_getElem_some tokens _ tok hget] at hi
        simp only [feed_count, hfeed] at hi
        rw [parse_loop_feed pm tokens fuel s tok st2 hget hfeed]
        apply ih (feed_step pm s tok st2) (by simp; omega)
        · intro j hj
          rw [feed_step_snaps]
          have hne : j ≠ s.cur_pos := by simp at hj; omega
          simp only [hne, if_false]
          exact hpre j (by simp at hj; omega)
        · simp only [feed_step_cur_pos, feed_step_interactive]
          omega

theorem parse_loop_acs_of_count_zero (pm : ParserModel σ) (tokens : List Token)
    (fuel : Nat) (s : IPState σ)
    (h : feed_count pm s.interactive (tokens.drop s.cur_pos) = 0) :
    (parse_loop pm tokens fuel s).cur_ac_terminals = s.cur_ac_terminals ∧
      (parse_loop pm tokens fuel s).next_ac_terminals = s.next_ac_terminals := by
  cases fuel with
  | zero => exact ⟨rfl, rfl⟩
  | succ fuel =>
    cases hget : tokens[s.cur_pos]? with
    | none => rw [parse_loop_none pm tokens fuel s hget]; exact ⟨rfl, rfl⟩
    | some tok =>
      cases hfeed : pm.feed s.interactive tok with
      | none => rw [parse_loop_fail pm tokens fuel s tok hget hfeed]; exact ⟨rfl, rfl⟩
      | some st2 =>
        exfalso
        rw [drop_of_getElem_some tokens _ tok hget] at h
        simp [feed_count, hfeed] at h

theorem parse_loop_last_snap (pm : ParserModel σ) (tokens : List Token) :
    ∀ (fuel : Nat) (s : IPState σ), tokens.length ≤ s.cur_pos + fuel →
      1 ≤ feed_count pm s.interactive (tokens.drop s.cur_pos) →
      (parse_loop pm tokens fuel s).cur_pos_to_parser_state
          (s.cur_pos + feed_count pm s.interactive (tokens.drop s.cur_pos) - 1) =
        some ⟨feed_state pm s.interactive (tokens.drop s.cur_pos),
          (parse_loop pm tokens fuel s).cur_ac_terminals,
          (parse_loop pm tokens fuel s).next_ac_terminals,
          none, s.dedent_queue⟩ := by
  intro fuel
  induction fuel with
  | zero =>
    intro s hfuel hk
    rw [List.drop_eq_nil_of_le (by omega)] at hk
    simp [feed_count] at hk
  | succ fuel ih =>
    intro s hfuel hk
    cases hget : tokens[s.cur_pos]? with
    | none =>
      rw [drop_of_getElem_none tokens _ hget] at hk
      simp [feed_count] at hk
    | some tok =>
      rw [drop_of_getElem_some tokens _ tok hget] at hk ⊢
      cases hfeed : pm.feed s.interactive tok with
      | none => simp [feed_count, hfeed] at hk
      | some st2 =>
        simp only [feed_count, feed_state, hfeed]
        rw [parse_loop_feed pm tokens fuel s tok st2 hget hfeed]
        rcases Nat.eq_zero_or_pos (feed_count pm st2 (tokens.drop (s.cur_pos + 1))) with h0 | hpos
        · obtain ⟨hc, hn⟩ :=
            parse_loop_acs_of_count_zero pm tokens fuel (feed_step pm s tok st2)
              (by simpa using h0)
          rw [parse_loop_snaps_lt pm tokens fuel (feed_step pm s tok st2) _ (by simp; omega)]
          rw [feed_step_snaps]
          rw [feed_state_of_count_zero pm _ st2 h0]
          simp [h0, hc, hn]
        · have := ih (feed_step pm s tok st2) (by simp; omega) (by simpa using hpos)
          simp only [feed_step_cur_pos, feed_step_interactive, feed_step_dedent] at this
          have harith :
              s.cur_pos + 1 + feed_count pm st2 (tokens.drop (s.cur_pos + 1)) - 1 =
                s.cur_pos + (feed_count pm st2 (tokens.drop (s.cur_pos + 1)) + 1) - 1 := by
            omega
          rw [harith] at this
          exact this

theorem parse_loop_fuel_irrel (pm : ParserModel σ) (tokens : List Token) :
    ∀ (fuel1 fuel2 : Nat) (s : IPState σ),
      tokens.length ≤ s.cur_pos + fuel1 → tokens.length ≤ s.cur_pos + fuel2 →
      parse_loop pm tokens fuel1 s = parse_loop pm tokens fuel2 s := by
  intro fuel1
  induction fuel1 with
  | zero =>
    intro fuel2 s h1 h2
    have hget : tokens[s.cur_pos]? = none := List.getElem?_eq_none (by omega)
    cases fuel2 with
    | zero => rfl
    | succ fuel2 => rw [parse_loop_zero, parse_loop_none pm tokens fuel2 s hget]
  | succ fuel1 ih =>
    intro fuel2 s h1 h2
    cases fuel2 with
    | zero =>
      have hget : tokens[s.cur_pos]? = none := List.getElem?_eq_none (by omega)
      rw [parse_loop_zero, parse_loop_none pm tokens fuel1 s hget]
    | succ fuel2 =>
      cases hget : tokens[s.cur_pos]? with
      | none => rw [parse_loop_none pm tokens fuel1 s hget, parse_loop_none pm tokens fuel2 s hget]
      | some tok =>
        cases hfeed : pm.feed s.interactive tok with
        | none =>
          rw [parse_loop_fail pm tokens fuel1 s tok hget hfeed,
            parse_loop_fail pm tokens fuel2 s tok hget hfeed]
        | some st2 =>
          rw [parse_loop_feed pm tokens fuel1 s tok st2 hget hfeed,
            parse_loop_feed pm tokens fuel2 s tok st2 hget hfeed]
          exact ih fuel2 (feed_step pm s tok st2) (by simp; omega) (by simp; omega)

/-- Two sessions that agree on the fields the feed loop reads (`cur_pos`,
parser state, accept sets, dedent queue, snapshot map) stay in lockstep:
after the loop they still agree on those fields, and the loop appends the
same tokens `app` to both `parser_token_seq`s — a nonempty `app` whenever a
token was available to attempt.  (`lexer_pos` and `prev_lexer_tokens` are
never read by the loop.) -/
theorem parse_loop_congr (pm : ParserModel σ) (tokens : List Token) :
    ∀ (fuel : Nat) (s t : IPState σ),
      s.cur_pos = t.cur_pos → s.interactive = t.interactive →
      s.cur_ac_terminals = t.cur_ac_terminals →
      s.next_ac_terminals = t.next_ac_terminals →
      s.dedent_queue = t.dedent_queue →
      s.cur_pos_to_parser_state = t.cur_pos_to_parser_state →
      (parse_loop pm tokens fuel s).cur_pos = (parse_loop pm tokens fuel t).cur_pos ∧
      (parse_loop pm tokens fuel s).interactive = (parse_loop pm tokens fuel t).interactive ∧
      (parse_loop pm tokens fuel s).cur_ac_terminals =
        (parse_loop pm tokens fuel t).cur_ac_terminals ∧
      (parse_loop pm tokens fuel s).next_ac_terminals =
        (parse_loop pm tokens fuel t).next_ac_terminals ∧
      (parse_loop pm tokens fuel s).dedent_queue = (parse_loop pm tokens fuel t).dedent_queue ∧
      (parse_loop pm tokens fuel s).cur_pos_to_parser_state =
        (parse_loop pm tokens fuel t).cur_pos_to_parser_state ∧
      ∃ app : List Token,
        (parse_loop pm tokens fuel s).parser_token_seq = s.parser_token_seq ++ app ∧
        (parse_loop pm tokens fuel t).parser_token_seq = t.parser_token_seq ++ app ∧
        (0 < fuel → s.cur_pos < tokens.length → app ≠ []) := by
  intro fuel
  induction fuel with
  | zero =>
    intro s t h1 h2 h3 h4 h5 h6
    refine ⟨h1, h2, h3, h4, h5, h6, [], by simp [parse_loop_zero],
      by simp [parse_loop_zero], by omega⟩
  | succ fuel ih =>
    intro s t h1 h2 h3 h4 h5 h6
    cases hget : tokens[s.cur_pos]? with
    | none =>
      rw [parse_loop_none pm tokens fuel s hget, parse_loop_none pm tokens fuel t (h1 ▸ hget)]
      have hlen : tokens.length ≤ s.cur_pos := List.getElem?_eq_none_iff.mp hget
      refine ⟨h1, h2, h3, h4, h5, h6, [], by simp, by simp, by omega⟩
    | some tok =>
      cases hfeed : pm.feed s.interactive tok with
      | none =>
        rw [parse_loop_fail pm tokens fuel s tok hget hfeed,
          parse_loop_fail pm tokens fuel t tok (h1 ▸ hget) (h2 ▸ hfeed)]
        exact ⟨by simp [h1], h2, h3, h4, h5, h6, [tok], by simp, by simp, by simp⟩
      | some st2 =>
        rw [parse_loop_feed pm tokens fuel s tok st2 hget hfeed,
          parse_loop_feed pm tokens fuel t tok st2 (h1 ▸ hget) (h2 ▸ hfeed)]
        have hsnaps : (feed_step pm s tok st2).cur_pos_to_parser_state =
            (feed_step pm t tok st2).cur_pos_to_parser_state := by
          funext i
          rw [feed_step_snaps, feed_step_snaps, h1, h4, h5, h6]
        obtain ⟨g1, g2, g3, g4, g5, g6, app, ha1, ha2, _⟩ :=
          ih (feed_step pm s tok st2) (feed_step pm t tok st2)
            (by simp [h1]) (by simp) (by simp [h4]) (by simp) (by simp [h5]) hsnaps
        refine ⟨g1, g2, g3, g4, g5, g6, tok :: app, ?_, ?_, by simp⟩
        · rw [ha1]; simp
        · rw [ha2]; simp

/-- Snapshots at indices inside `tokens` do not depend on tokens appended
after `tokens`: the loop on `tokens ++ rest` stores the same entries there as
the loop on `tokens` alone. -/
theorem parse_loop_append_snaps (pm : ParserModel σ) (tokens rest : List Token) :
    ∀ (fuel1 fuel2 : Nat) (s : IPState σ) (i : Nat),
      tokens.length ≤ s.cur_pos + fuel1 →
      (tokens ++ rest).length ≤ s.cur_pos + fuel2 →
      i < tokens.length →
      (parse_loop pm (tokens ++ rest) fuel2 s).cur_pos_to_parser_state i =
        (parse_loop pm tokens fuel1 s).cur_pos_to_parser_state i := by
  intro fuel1
  induction fuel1 with
  | zero =>
    intro fuel2 s i h1 h2 hi
    rw [parse_loop_zero, parse_loop_snaps_lt pm (tokens ++ rest) fuel2 s i (by omega)]
  | succ fuel1 ih =>
    intro fuel2 s i h1 h2 hi
    simp only [List.length_append] at h2
    by_cases hcur : s.cur_pos < tokens.length
    · have hget : tokens[s.cur_pos]? = some (tokens.get ⟨s.cur_pos, hcur⟩) :=
        List.getElem?_eq_getElem hcur
      have hgetl : (tokens ++ rest)[s.cur_pos]? = some (tokens.get ⟨s.cur_pos, hcur⟩) := by
        rw [List.getElem?_append_left hcur, hget]
      cases fuel2 with
      | zero => omega
      | succ fuel2 =>
        cases hfeed : pm.feed s.interactive (tokens.get ⟨s.cur_pos, hcur⟩) with
        | none =>
          rw [parse_loop_fail pm tokens fuel1 s _ hget hfeed,
            parse_loop_fail pm (tokens ++ rest) fuel2 s _ hgetl hfeed]
        | some st2 =>
          rw [parse_loop_feed pm tokens fuel1 s _ st2 hget hfeed,
            parse_loop_feed pm (tokens ++ rest) fuel2 s _ st2 hgetl hfeed]
          exact ih fuel2 (feed_step pm s _ st2) i (by simp; omega) (by simp; omega) hi
    · have hget : tokens[s.cur_pos]? = none := List.getElem?_eq_none (by omega)
      rw [parse_loop_none pm tokens fuel1 s hget,
        parse_loop_snaps_lt pm (tokens ++ rest) fuel2 s i (by omega)]

/-- Running the loop on `tokens` equals first running it on the prefix
`tokens.take (s.cur_pos + j)` — provided those `j` tokens all feed
successfully — and then continuing on the full list with the leftover fuel. -/
theorem parse_loop_split (pm : ParserModel σ) (tokens : List Token) :
    ∀ (j fuel : Nat) (s : IPState σ),
      j ≤ feed_count pm s.interactive (tokens.drop s.cur_pos) →
      s.cur_pos + j ≤ tokens.length →
      j ≤ fuel →
      parse_loop pm tokens fuel s =
        parse_loop pm tokens (fuel - j)
          (parse_loop pm (tokens.take (s.cur_pos + j)) j s) := by
  intro j
  induction j with
  | zero =>
    intro fuel s hcount hlen hfuel
    simp [parse_loop_zero]
  | succ j ih =>
    intro fuel s hcount hlen hfuel
    cases hd : tokens.drop s.cur_pos with
    | nil => rw [hd] at hcount; simp [feed_count] at hcount
    | cons tok rem2 =>
      have hget : tokens[s.cur_pos]? = some tok := by
        have h0 : (tokens.drop s.cur_pos)[0]? = some tok := by rw [hd]; simp
        rwa [List.getElem?_drop, Nat.add_zero] at h0
      rw [hd] at hcount
      cases hfeed : pm.feed s.interactive tok with
      | none => simp [feed_count, hfeed] at hcount
      | some st2 =>
        simp only [feed_count, hfeed] at hcount
        cases fuel with
        | zero => omega
        | succ fuel =>
          have hgett : (tokens.take (s.cur_pos + (j + 1)))[s.cur_pos]? = some tok := by
            rw [List.getElem?_take_of_lt (by omega), hget]
          rw [parse_loop_feed pm tokens fuel s tok st2 hget hfeed,
            parse_loop_feed pm (tokens.take (s.cur_pos + (j + 1))) j s tok st2 hgett hfeed]
          have hrem2 : tokens.drop (s.cur_pos + 1) = rem2 := by
            have := drop_of_getElem_some tokens s.cur_pos tok hget
            rw [hd] at this
            exact ((List.cons.injEq _ _ _ _ ▸ this).2).symm
          have := ih fuel (feed_step pm s tok st2)
            (by simp only [feed_step_cur_pos, feed_step_interactive]; rw [hrem2]; omega)
            (by simp; omega) (by omega)
          simp only [feed_step_cur_pos] at this
          have harith : s.cur_pos + 1 + j = s.cur_pos + (j + 1) := by omega
          rw [harith] at this
          rw [this]
          congr 1
          omega

/-! ### The snapshot-restoring scan -/

theorem tokenEq_refl (t : Token) : tokenEq t t = true := by simp [tokenEq]

theorem matchedLen_append_self (xs ys : List Token) : matchedLen xs (xs ++ ys) = xs.length := by
  induction xs with
  | nil => rfl
  | cons x xs ih => simp [matchedLen, tokenEq_refl, ih]

/-- If no index in the common prefix has a snapshot, the scan returns its
accumulator (`-1` at the top-level call): nothing to restore. -/
theorem mmi_of_all_none (snaps : Nat → Option (Snapshot σ)) :
    ∀ (prev new : List Token) (i : Nat) (acc : Option Nat),
      (∀ m, m < matchedLen prev new → snaps (i + m) = none) →
      max_matching_index snaps prev new i acc = acc := by
  intro prev
  induction prev with
  | nil => intro new i acc h; cases new <;> rfl
  | cons p ps ih =>
    intro new i acc h
    cases new with
    | nil => rfl
    | cons t ts =>
      by_cases he : tokenEq p t
      · have hml : matchedLen (p :: ps) (t :: ts) = matchedLen ps ts + 1 := by
          simp [matchedLen, he]
        have h0 : snaps i = none := by
          have := h 0 (by omega)
          simpa using this
        simp only [max_matching_index, he, if_true, h0, Option.isSome_none, Bool.false_eq_true,
          if_false]
        exact ih ts (i + 1) acc (by
          intro m hm
          have := h (m + 1) (by omega)
          rwa [show i + (m + 1) = i + 1 + m by omega] at this)
      · simp [max_matching_index, he]

/-- If `m` is the largest index of the `tokenEq`-common prefix that has a
snapshot, the scan returns exactly `i + m`. -/
theorem mmi_finds (snaps : Nat → Option (Snapshot σ)) :
    ∀ (prev new : List Token) (i : Nat) (acc : Option Nat) (m : Nat),
      m < matchedLen prev new →
      (snaps (i + m)).isSome →
      (∀ m2, m < m2 → m2 < matchedLen prev new → snaps (i + m2) = none) →
      max_matching_index snaps prev new i acc = some (i + m) := by
  intro prev
  induction prev with
  | nil => intro new i acc m hm _ _; simp [matchedLen] at hm
  | cons p ps ih =>
    intro new i acc m hm hsome hmax
    cases new with
    | nil => simp [matchedLen] at hm
    | cons t ts =>
      by_cases he : tokenEq p t
      · have hml : matchedLen (p :: ps) (t :: ts) = matchedLen ps ts + 1 := by
          simp [matchedLen, he]
        rw [hml] at hm hmax
        cases m with
        | zero =>
          have h0 : (snaps i).isSome := by simpa using hsome
          simp only [max_matching_index, he, if_true, h0, if_true]
          rw [mmi_of_all_none snaps ps ts (i + 1) (some i) (by
            intro m2 hm2
            have := hmax (m2 + 1) (by omega) (by omega)
            rwa [show i + (m2 + 1) = i + 1 + m2 by omega] at this)]
          simp
        | succ m1 =>
          simp only [max_matching_index, he, if_true]
          have := ih ts (i + 1) (if (snaps i).isSome then some i else acc) m1
            (by omega)
            (by rwa [show i + 1 + m1 = i + (m1 + 1) by omega])
            (by
              intro m2 h1 h2
              have := hmax (m2 + 1) (by omega) (by omega)
              rwa [show i + (m2 + 1) = i + 1 + m2 by omega] at this)
          rw [this]
          congr 1
          omega
      · simp [matchedLen, he] at hm

theorem restore_recent_of_none (s : IPState σ) (tokens : List Token)
    (h : max_matching_index s.cur_pos_to_parser_state s.prev_lexer_tokens tokens 0 none = none) :
    restore_recent_parser_state s tokens = s := by
  simp [restore_recent_parser_state, h]

theorem restore_recent_of_some (s : IPState σ) (tokens : List Token) (j : Nat)
    (h : max_matching_index s.cur_pos_to_parser_state s.prev_lexer_tokens tokens 0 none = some j) :
    restore_recent_parser_state s tokens = restore_parser_state { s with cur_pos := j + 1 } j := by
  simp [restore_recent_parser_state, h]

theorem feed_count_take (pm : ParserModel σ) :
    ∀ (l : List Token) (st : σ),
      feed_count pm st (l.take (feed_count pm st l)) = feed_count pm st l := by
  intro l
  induction l with
  | nil => intro st; rfl
  | cons t ts ih =>
    intro st
    cases hf : pm.feed st t with
    | none => simp [feed_count, hf]
    | some st2 =>
      simp only [feed_count, hf, List.take_succ_cons]
      rw [ih st2]

theorem feed_count_append_le (pm : ParserModel σ) :
    ∀ (xs ys : List Token) (st : σ),
      feed_count pm st xs ≤ feed_count pm st (xs ++ ys) := by
  intro xs
  induction xs with
  | nil => intro ys st; simp [feed_count]
  | cons t ts ih =>
    intro ys st
    cases hf : pm.feed st t with
    | none => simp [feed_count, hf]
    | some st2 =>
      simp only [List.cons_append, feed_count, hf]
      exact Nat.succ_le_succ (ih ys st2)

/-! ### The lexer loop -/

/-- Full behaviour of `_lex_code`'s loop under the progress assumption on the
lexer (each emitted token strictly advances `char_pos`, stays within the
text, and does not change the text).  The loop returns the accumulated
tokens extended by a `LexChain`, never exceeds the buffer, and when it stops
short of the buffer end it is because `next_token` failed there. -/
theorem lex_loop_spec (lm : LexerModel) (code : String)
    (hprog : ∀ st t st2, lm.next_token st = some (t, st2) →
      st.char_pos < st2.char_pos ∧ st2.char_pos ≤ st2.text.length ∧ st2.text = st.text) :
    ∀ (fuel : Nat) (st : LexerState) (toks : List Token),
      st.text = code → code.length ≤ st.char_pos + fuel →
      ∃ delta stF,
        lex_loop lm fuel st toks = (toks ++ delta, stF) ∧
        LexChain lm st delta stF ∧
        stF.text = code ∧
        st.char_pos ≤ stF.char_pos ∧
        (st.char_pos ≤ code.length → stF.char_pos ≤ code.length) ∧
        (stF.char_pos < code.length → lm.next_token stF = none) := by
  intro fuel
  induction fuel with
  | zero =>
    intro st toks htext hfuel
    refine ⟨[], st, by simp [lex_loop], rfl, htext, Nat.le_refl _, fun h => h, fun h => ?_⟩
    omega
  | succ fuel ih =>
    intro st toks htext hfuel
    by_cases hguard : st.char_pos < st.text.length
    · cases hnt : lm.next_token st with
      | none =>
        refine ⟨[], st, ?_, rfl, htext, Nat.le_refl _, fun h => h, fun _ => hnt⟩
        simp [lex_loop, hguard, hnt]
      | some pair =>
        obtain ⟨t, st2⟩ := pair
        obtain ⟨hlt, hle, hteq⟩ := hprog st t st2 hnt
        obtain ⟨delta2, stF, hrun, hchain, htextF, hposF, hleF, hstuck⟩ :=
          ih st2 (toks ++ [t]) (hteq.trans htext) (by omega)
        refine ⟨t :: delta2, stF, ?_, ⟨st2, hnt, hchain⟩, htextF, by omega, fun _ => ?_, hstuck⟩
        · rw [show toks ++ t :: delta2 = (toks ++ [t]) ++ delta2 by simp]
          rw [← hrun]
          simp [lex_loop, hguard, hnt]
        · exact hleF (by rw [hteq, htext] at hle; omega)
    · refine ⟨[], st, ?_, rfl, htext, Nat.le_refl _, fun h => h, fun h => ?_⟩
      · simp [lex_loop, hguard]
      · rw [htext] at hguard; omega

/-! ### Unfolding `get_acceptable_next_terminals` -/

theorem get_acceptable_eq (pm : ParserModel σ) (lm : LexerModel) (s : IPState σ)
    (partial_code : String) :
    get_acceptable_next_terminals pm lm s partial_code =
      ((get_remainder (advance_state pm lm s partial_code) partial_code).map
        (fun rc =>
          ⟨(advance_state pm lm s partial_code).cur_ac_terminals,
            (advance_state pm lm s partial_code).next_ac_terminals, rc.2, rc.1, none⟩),
       advance_state pm lm s partial_code) := by
  unfold get_acceptable_next_terminals advance_state
  cases hr : get_remainder
      (parse_loop pm (lex_code lm partial_code).1 (lex_code lm partial_code).1.length
        { restore_recent_parser_state { s with lexer_pos := (lex_code lm partial_code).2 }
            (lex_code lm partial_code).1 with
          prev_lexer_tokens := (lex_code lm partial_code).1 })
      partial_code with
  | none => simp [hr]
  | some rc => simp [hr]

/-! ### Restore-step field preservation -/

theorem restore_parser_state_lexer_pos (s : IPState σ) (pos : Nat) :
    (restore_parser_state s pos).lexer_pos = s.lexer_pos := by
  unfold restore_parser_state
  cases s.cur_pos_to_parser_state pos <;> rfl

theorem restore_parser_state_seq (s : IPState σ) (pos : Nat) :
    (restore_parser_state s pos).parser_token_seq = s.parser_token_seq := by
  unfold restore_parser_state
  cases s.cur_pos_to_parser_state pos <;> rfl

theorem restore_parser_state_cur_pos (s : IPState σ) (pos : Nat) :
    (restore_parser_state s pos).cur_pos = s.cur_pos := by
  unfold restore_parser_state
  cases s.cur_pos_to_parser_state pos <;> rfl

theorem restore_parser_state_snaps (s : IPState σ) (pos : Nat) :
    (restore_parser_state s pos).cur_pos_to_parser_state = s.cur_pos_to_parser_state := by
  unfold restore_parser_state
  cases s.cur_pos_to_parser_state pos <;> rfl

theorem restore_parser_state_of_lookup (s : IPState σ) (pos : Nat) (snap : Snapshot σ)
    (h : s.cur_pos_to_parser_state pos = some snap) :
    restore_parser_state s pos =
      { s with
        interactive := snap.parser_state
        dedent_queue := snap.dedent_queue
        cur_ac_terminals := snap.cur_ac_terminals
        next_ac_terminals := snap.next_ac_terminals } := by
  unfold restore_parser_state
  rw [h]

theorem restore_recent_lexer_pos (s : IPState σ) (tokens : List Token) :
    (restore_recent_parser_state s tokens).lexer_pos = s.lexer_pos := by
  unfold restore_recent_parser_state
  cases max_matching_index s.cur_pos_to_parser_state s.prev_lexer_tokens tokens 0 none with
  | none => rfl
  | some j => rw [restore_parser_state_lexer_pos]

theorem restore_recent_seq (s : IPState σ) (tokens : List Token) :
    (restore_recent_parser_state s tokens).parser_token_seq = s.parser_token_seq := by
  unfold restore_recent_parser_state
  cases max_matching_index s.cur_pos_to_parser_state s.prev_lexer_tokens tokens 0 none with
  | none => rfl
  | some j => rw [restore_parser_state_seq]

theorem advance_state_lexer_pos (pm : ParserModel σ) (lm : LexerModel) (s : IPState σ)
    (code : String) : (advance_state pm lm s code).lexer_pos = (lex_code lm code).2 := by
  unfold advance_state
  rw [parse_loop_lexer_pos]
  show (restore_recent_parser_state { s with lexer_pos := (lex_code lm code).2 }
    (lex_code lm code).1).lexer_pos = _
  rw [restore_recent_lexer_pos]

theorem mmi_nil_prev (snaps : Nat → Option (Snapshot σ)) (new2 : List Token) (i : Nat)
    (acc : Option Nat) : max_matching_index snaps [] new2 i acc = acc := by
  cases new2 <;> rfl

theorem restore_recent_prev_nil (s : IPState σ) (tokens : List Token)
    (h : s.prev_lexer_tokens = []) : restore_recent_parser_state s tokens = s := by
  unfold restore_recent_parser_state
  rw [h, mmi_nil_prev]

/-- `_get_remainder` reads only `lexer_pos` and the last token of
`parser_token_seq`. -/
theorem get_remainder_congr (s t : IPState σ) (code : String)
    (h1 : s.lexer_pos = t.lexer_pos)
    (h2 : s.parser_token_seq.getLast? = t.parser_token_seq.getLast?) :
    get_remainder s code = get_remainder t code := by
  unfold get_remainder
  rw [h1, h2]

/-- On a session whose `prev_lexer_tokens` is empty (in particular a fresh
one), the restore step is a no-op and `advance_state` is just the feed loop
on the lexed tokens. -/
theorem advance_state_of_prev_nil (pm : ParserModel σ) (lm : LexerModel) (s : IPState σ)
    (code : String) (h : s.prev_lexer_tokens = []) :
    advance_state pm lm s code =
      parse_loop pm (lex_code lm code).1 (lex_code lm code).1.length
        { s with
          lexer_pos := (lex_code lm code).2
          prev_lexer_tokens := (lex_code lm code).1 } := by
  unfold advance_state
  rw [restore_recent_prev_nil { s with lexer_pos := (lex_code lm code).2 }
    (lex_code lm code).1 h]

/-! ### Claims -/

/-- Claim C1: when the parser raises `UnexpectedToken` on the token at
`cur_pos` (here: `feed` returns `none` on `tok`, `s` being the session state
reached after the last successful feed, since the loop threads exactly such
states), `get_acceptable_next_terminals`'s feed loop stops at that token:
the final state differs from `s` only in `cur_pos` (advanced past the
offending token) and `parser_token_seq` (the offending token appended), so
the returned `cur_ac_terminals`/`next_ac_terminals` are exactly the ones
recorded at the last successful feed, not sets derived from the aborted
feed. -/
theorem claim1_unexpected_token_keeps_last_sets (pm : ParserModel σ) (tokens : List Token)
    (s : IPState σ) (tok : Token)
    (hget : tokens[s.cur_pos]? = some tok)
    (hfail : pm.feed s.interactive tok = none) :
    parse_loop pm tokens tokens.length s =
      { s with cur_pos := s.cur_pos + 1, parser_token_seq := s.parser_token_seq ++ [tok] } ∧
    (parse_loop pm tokens tokens.length s).cur_ac_terminals = s.cur_ac_terminals ∧
    (parse_loop pm tokens tokens.length s).next_ac_terminals = s.next_ac_terminals := by
  have hlt : s.cur_pos < tokens.length := (List.getElem?_eq_some.mp hget).1
  obtain ⟨m, hm⟩ : ∃ m, tokens.length = m + 1 := ⟨tokens.length - 1, by omega⟩
  rw [hm, parse_loop_fail pm tokens m s tok hget hfail]
  exact ⟨rfl, rfl, rfl⟩

/-- Witness for C1 at a concrete input: a fresh session with `pmRej` rejects
the single lexed token; the returned sets are the (still unset) entry sets. -/
theorem claim1_witness :
    (([tokX] : List Token)[(init_state pmRej).cur_pos]? = some tokX) ∧
    (pmRej.feed (init_state pmRej).interactive tokX = none) ∧
    (parse_loop pmRej [tokX] ([tokX] : List Token).length (init_state pmRej)).cur_ac_terminals =
      (init_state pmRej).cur_ac_terminals :=
  ⟨by decide, by decide,
    (claim1_unexpected_token_keeps_last_sets pmRej [tokX] (init_state pmRej) tokX
      (by decide) (by decide)).2.1⟩

/-- Claim C7: a successful feed of the token at index `cur_pos` stores a
snapshot at that index whose `cur_ac_terminals` is the driver's
`next_ac_terminals` from before the feed and whose `next_ac_terminals` is
the accepts set computed just after the feed; the driver's live sets are
updated to the same two values, and the loop continues from that state. -/
theorem claim7_store_after_successful_feed (pm : ParserModel σ) (tokens : List Token)
    (s : IPState σ) (tok : Token) (st2 : σ)
    (hget : tokens[s.cur_pos]? = some tok)
    (hfeed : pm.feed s.interactive tok = some st2) :
    ∃ s3 : IPState σ,
      parse_loop pm tokens tokens.length s = parse_loop pm tokens (tokens.length - 1) s3 ∧
      s3.cur_pos_to_parser_state s.cur_pos =
        some ⟨st2, s.next_ac_terminals, some (pm.accepts st2), none, s.dedent_queue⟩ ∧
      s3.cur_ac_terminals = s.next_ac_terminals ∧
      s3.next_ac_terminals = some (pm.accepts st2) ∧
      s3.cur_pos = s.cur_pos + 1 := by
  refine ⟨feed_step pm s tok st2, ?_, ?_, rfl, rfl, rfl⟩
  · have hlt : s.cur_pos < tokens.length := (List.getElem?_eq_some.mp hget).1
    obtain ⟨m, hm⟩ : ∃ m, tokens.length = m + 1 := ⟨tokens.length - 1, by omega⟩
    rw [hm, parse_loop_feed pm tokens m s tok st2 hget hfeed]
    congr 1
  · rw [feed_step_snaps]
    simp

/-- Witness for C7 at a concrete input: feeding `tokA` on a fresh `pmA`
session stores the snapshot at index 0. -/
theorem claim7_witness :
    (([tokA] : List Token)[(init_state pmA).cur_pos]? = some tokA) ∧
    (pmA.feed (init_state pmA).interactive tokA = some 1) ∧
    ∃ s3 : IPState Nat,
      parse_loop pmA [tokA] ([tokA] : List Token).length (init_state pmA) =
        parse_loop pmA [tokA] (([tokA] : List Token).length - 1) s3 ∧
      s3.cur_pos_to_parser_state (init_state pmA).cur_pos =
        some ⟨1, (init_state pmA).next_ac_terminals, some (pmA.accepts 1), none,
          (init_state pmA).dedent_queue⟩ ∧
      s3.cur_ac_terminals = (init_state pmA).next_ac_terminals ∧
      s3.next_ac_terminals = some (pmA.accepts 1) ∧
      s3.cur_pos = (init_state pmA).cur_pos + 1 :=
  ⟨by decide, by decide,
    claim7_store_after_successful_feed pmA [tokA] (init_state pmA) tokA 1
      (by decide) (by decide)⟩

/-- Claim C4: `_get_remainder`'s classification.  With `B = len(code)`:
if `lexer_pos < B` and the suffix stripped of leading spaces is non-empty,
the result is INCOMPLETE with that suffix; if `lexer_pos < B` and the
stripped suffix is empty, COMPLETE with `""`; if `lexer_pos = B` (the code's
`else` branch), MAYBE_COMPLETE with the value of the last token of
`parser_token_seq`; and the classification is exhaustive and mutually
exclusive: any returned state is INCOMPLETE, COMPLETE or MAYBE_COMPLETE
exactly under the corresponding condition. -/
theorem claim4_remainder_classification (s : IPState σ) (code : String) :
    ((s.lexer_pos < code.length ∧
        (code.drop s.lexer_pos).dropWhile (fun c => c == ' ') ≠ "") →
      get_remainder s code =
        some (RemainderState.INCOMPLETE,
          (code.drop s.lexer_pos).dropWhile (fun c => c == ' '))) ∧
    ((s.lexer_pos < code.length ∧
        (code.drop s.lexer_pos).dropWhile (fun c => c == ' ') = "") →
      get_remainder s code = some (RemainderState.COMPLETE, "")) ∧
    (∀ tok, code.length ≤ s.lexer_pos → s.parser_token_seq.getLast? = some tok →
      get_remainder s code = some (RemainderState.MAYBE_COMPLETE, tok.value)) ∧
    (∀ rc, get_remainder s code = some rc →
      ((rc.1 = RemainderState.INCOMPLETE ↔
          (s.lexer_pos < code.length ∧
            (code.drop s.lexer_pos).dropWhile (fun c => c == ' ') ≠ "")) ∧
       (rc.1 = RemainderState.COMPLETE ↔
          (s.lexer_pos < code.length ∧
            (code.drop s.lexer_pos).dropWhile (fun c => c == ' ') = "")) ∧
       (rc.1 = RemainderState.MAYBE_COMPLETE ↔ code.length ≤ s.lexer_pos))) := by
  by_cases h : s.lexer_pos < code.length
  · by_cases ht : (code.drop s.lexer_pos).dropWhile (fun c => c == ' ') = ""
    · refine ⟨fun hc => absurd ht hc.2, fun _ => ?_, fun tok hc _ => by omega, fun rc hrc => ?_⟩
      · simp [get_remainder, h, ht]
      · have : rc = (RemainderState.COMPLETE, "") := by
          rw [get_remainder, if_pos h] at hrc
          simp only [ht, if_pos rfl] at hrc
          · exact (Option.some.injEq _ _ ▸ hrc).symm
        rw [this]
        refine ⟨by simp [h, ht], by simp [h, ht], by simp; omega⟩
    · refine ⟨fun _ => ?_, fun hc => absurd hc.2 ht, fun tok hc _ => by omega, fun rc hrc => ?_⟩
      · simp [get_remainder, h, ht]
      · have : rc = (RemainderState.INCOMPLETE,
            (code.drop s.lexer_pos).dropWhile (fun c => c == ' ')) := by
          rw [get_remainder, if_pos h] at hrc
          simp only [ht, if_neg ht] at hrc
          exact (Option.some.injEq _ _ ▸ hrc).symm
        rw [this]
        refine ⟨by simp [h, ht], by simp [ht], by simp; omega⟩
  · refine ⟨fun hc => absurd hc.1 h, fun hc => absurd hc.1 h, fun tok hc hlast => ?_, fun rc hrc => ?_⟩
    · rw [get_remainder, if_neg h, hlast]
    · rw [get_remainder, if_neg h] at hrc
      cases hlast : s.parser_token_seq.getLast? with
      | none => rw [hlast] at hrc; exact absurd hrc (by simp)
      | some tok =>
        rw [hlast] at hrc
        have : rc = (RemainderState.MAYBE_COMPLETE, tok.value) :=
          (Option.some.injEq _ _ ▸ hrc).symm
        rw [this]
        refine ⟨by simp [h], by simp [h], by simp; omega⟩

/-- Witness for C4 at a concrete input: `sW4` has consumed the buffer `"a"`
entirely with `parser_token_seq = [tokA]`, so the remainder is
MAYBE_COMPLETE with string `"a"`. -/
theorem claim4_witness :
    (("a".length ≤ sW4.lexer_pos) ∧ sW4.parser_token_seq.getLast? = some tokA) ∧
    get_remainder sW4 "a" = some (RemainderState.MAYBE_COMPLETE, tokA.value) :=
  ⟨⟨by decide, by decide⟩,
    (claim4_remainder_classification sW4 "a").2.2.1 tokA (by decide) (by decide)⟩

/-- Claim C10: if the lexer consumed the entire buffer (`lexer_pos = B`) but
the parser rejects the token at index `cur_pos + k` (where `k` is the number
of successful feeds the loop makes, so that index is the offending one), the
rejected token was appended to `parser_token_seq` before the failed feed, and
the MAYBE_COMPLETE remainder string returned is the *rejected* token's value,
not the value of the last successfully parsed token. -/
theorem claim10_rejected_token_is_remainder (pm : ParserModel σ) (tokens : List Token)
    (s : IPState σ) (code : String)
    (hlex : s.lexer_pos = code.length)
    (hcount : s.cur_pos + feed_count pm s.interactive (tokens.drop s.cur_pos) < tokens.length) :
    get_remainder (parse_loop pm tokens tokens.length s) code =
      some (RemainderState.MAYBE_COMPLETE,
        (tokens.get ⟨s.cur_pos + feed_count pm s.interactive (tokens.drop s.cur_pos),
          hcount⟩).value) := by
  have hfuel : tokens.length ≤ s.cur_pos + tokens.length := by omega
  have hlp := parse_loop_lexer_pos pm tokens tokens.length s
  have hseq := parse_loop_seq pm tokens tokens.length s hfuel
  have hremlen : (tokens.drop s.cur_pos).length = tokens.length - s.cur_pos :=
    List.length_drop _ _
  have hklt : feed_count pm s.interactive (tokens.drop s.cur_pos) <
      (tokens.drop s.cur_pos).length := by omega
  rw [get_remainder, hlp, hlex, if_neg (by omega), hseq]
  have htake_ne : (tokens.drop s.cur_pos).take
      (feed_count pm s.interactive (tokens.drop s.cur_pos) + 1) ≠ [] := by
    have : (tokens.drop s.cur_pos).length ≠ 0 := by omega
    simp only [ne_eq, List.take_eq_nil_iff]
    push_neg
    exact ⟨by omega, by intro hc; exact this (by rw [hc]; rfl)⟩
  rw [List.getLast?_append_of_ne_nil _ htake_ne]
  have hlen_take : ((tokens.drop s.cur_pos).take
      (feed_count pm s.interactive (tokens.drop s.cur_pos) + 1)).length =
      feed_count pm s.interactive (tokens.drop s.cur_pos) + 1 := by
    rw [List.length_take]
    omega
  rw [List.getLast?_eq_getElem?, hlen_take, Nat.add_sub_cancel,
    List.getElem?_take_of_lt (by omega), List.getElem?_drop]
  rw [List.getElem?_eq_getElem hcount]
  rfl

/-- Witness for C10 at a concrete input: on buffer `"ba"` fully lexed, `pmB`
accepts `b` and rejects `a`; the remainder is the rejected token's value
`"a"`, not the last successfully parsed `"b"`. -/
theorem claim10_witness :
    (sW10.lexer_pos = ("ba" : String).length) ∧
    (sW10.cur_pos + feed_count pmB sW10.interactive (([tokB0, tokA1] : List Token).drop
        sW10.cur_pos) < ([tokB0, tokA1] : List Token).length) ∧
    get_remainder (parse_loop pmB [tokB0, tokA1] ([tokB0, tokA1] : List Token).length sW10)
        "ba" = some (RemainderState.MAYBE_COMPLETE, "a") :=
  ⟨by decide, by decide,
    claim10_rejected_token_is_remainder pmB [tokB0, tokA1] sW10 "ba" (by decide) (by decide)⟩

/-- Claim C9: `_lex_code` never propagates a lexing exception.  Under the
lexer progress assumption (each token strictly advances `char_pos`, stays in
the buffer and preserves the text — true of lark's basic lexer), `lex_code`
returns the tokens emitted by a clean `LexChain` from position 0, its final
`lexer_pos` is the chain's final character position, `lexer_pos ≤ len(code)`,
and when `lexer_pos < len(code)` the lexer is stuck there (`next_token`
fails: an unexpected character ended lexing), i.e. `lexer_pos = len(code)`
exactly when the lexer consumed the whole buffer. -/
theorem claim9_lex_stops_cleanly (lm : LexerModel) (code : String)
    (hprog : ∀ st t st2, lm.next_token st = some (t, st2) →
      st.char_pos < st2.char_pos ∧ st2.char_pos ≤ st2.text.length ∧ st2.text = st.text) :
    ∃ stF : LexerState,
      LexChain lm ⟨code, 0⟩ (lex_code lm code).1 stF ∧
      (lex_code lm code).2 = stF.char_pos ∧
      stF.text = code ∧
      (lex_code lm code).2 ≤ code.length ∧
      ((lex_code lm code).2 < code.length → lm.next_token stF = none) := by
  obtain ⟨delta, stF, hrun, hchain, htext, hpos, hle, hstuck⟩ :=
    lex_loop_spec lm code hprog code.length ⟨code, 0⟩ [] rfl (by omega)
  have h1 : (lex_code lm code).1 = delta := by simp [lex_code, hrun]
  have h2 : (lex_code lm code).2 = stF.char_pos := by simp [lex_code, hrun]
  refine ⟨stF, ?_, h2, htext, ?_, ?_⟩
  · rw [h1]; exact hchain
  · rw [h2]; exact hle (Nat.zero_le _)
  · rw [h2]; exact hstuck

/-- The toy lexer satisfies the progress assumption of C9. -/
theorem toyLM_progress : ∀ st t st2, toyLM.next_token st = some (t, st2) →
    st.char_pos < st2.char_pos ∧ st2.char_pos ≤ st2.text.length ∧ st2.text = st.text := by
  intro st t st2 h
  simp only [toyLM] at h
  cases hc : st.text.toList[st.char_pos]? with
  | none => rw [hc] at h; exact absurd h (by simp)
  | some c =>
    rw [hc] at h
    dsimp only at h
    have hlt : st.char_pos < st.text.toList.length := (List.getElem?_eq_some.mp hc).1
    have hlen : st.text.toList.length = st.text.length := by
      rw [String.length, String.toList]
    by_cases ha : (c == 'a') = true
    · rw [if_pos ha] at h
      injection h with h1
      injection h1 with ht hs
      subst hs
      refine ⟨Nat.lt_succ_self _, ?_, rfl⟩
      show st.char_pos + 1 ≤ st.text.length
      omega
    · rw [if_neg ha] at h
      by_cases hb : (c == 'b') = true
      · rw [if_pos hb] at h
        injection h with h1
        injection h1 with ht hs
        subst hs
        refine ⟨Nat.lt_succ_self _, ?_, rfl⟩
        show st.char_pos + 1 ≤ st.text.length
        omega
      · rw [if_neg hb] at h
        exact absurd h (by simp)

/-- Witness for C9 at a concrete input: the toy lexer on `"ab"` stops within
the buffer. -/
theorem claim9_witness :
    (∀ st t st2, toyLM.next_token st = some (t, st2) →
      st.char_pos < st2.char_pos ∧ st2.char_pos ≤ st2.text.length ∧ st2.text = st.text) ∧
    (lex_code toyLM "ab").2 ≤ ("ab" : String).length := by
  refine ⟨toyLM_progress, ?_⟩
  obtain ⟨stF, _, _, _, hle, _⟩ := claim9_lex_stops_cleanly toyLM "ab" toyLM_progress
  exact hle

/-- Claim C8: in the longest-common-prefix scan of
`_restore_recent_parser_state`, two tokens are equal exactly when they agree
on `(type, value)`; replacing the new token list by one with identical types
and values but different offsets never changes the scan's outcome. -/
theorem claim8_token_equality_ignores_offsets (σ : Type) :
    (∀ t1 t2 : Token, tokenEq t1 t2 = true ↔ (t1.type = t2.type ∧ t1.value = t2.value)) ∧
    (∀ (snaps : Nat → Option (Snapshot σ)) (prev new2 new3 : List Token) (i : Nat)
        (acc : Option Nat),
      List.Forall₂ (fun a b => a.type = b.type ∧ a.value = b.value) new2 new3 →
      max_matching_index snaps prev new2 i acc = max_matching_index snaps prev new3 i acc) := by
  constructor
  · intro t1 t2
    simp [tokenEq, Bool.and_eq_true, beq_iff_eq]
  · intro snaps prev new2 new3 i acc hf
    induction hf generalizing prev i acc with
    | nil => cases prev <;> rfl
    | @cons a b as bs hab _ ih =>
      cases prev with
      | nil => rfl
      | cons p ps =>
        have he : tokenEq p b = tokenEq p a := by
          simp [tokenEq, hab.1, hab.2]
        simp only [max_matching_index, he]
        by_cases h : tokenEq p a = true
        · rw [if_pos h, if_pos h]
          exact ih ps (i + 1) (if (snaps i).isSome then some i else acc)
        · rw [if_neg h, if_neg h]

/-- Witness for C8 at a concrete input: shifting `tokA`'s offsets
(`tokAshift`) preserves both token equality and the scan's result. -/
theorem claim8_witness :
    (tokenEq tokA tokAshift = true ↔
      (tokA.type = tokAshift.type ∧ tokA.value = tokAshift.value)) ∧
    List.Forall₂ (fun a b => a.type = b.type ∧ a.value = b.value) [tokA] [tokAshift] ∧
    max_matching_index sEx.cur_pos_to_parser_state sEx.prev_lexer_tokens [tokA] 0 none =
      max_matching_index sEx.cur_pos_to_parser_state sEx.prev_lexer_tokens [tokAshift] 0 none :=
  ⟨(claim8_token_equality_ignores_offsets Nat).1 tokA tokAshift,
    List.Forall₂.cons ⟨rfl, rfl⟩ List.Forall₂.nil,
    (claim8_token_equality_ignores_offsets Nat).2 sEx.cur_pos_to_parser_state
      sEx.prev_lexer_tokens [tokA] [tokAshift] 0 none
      (List.Forall₂.cons ⟨rfl, rfl⟩ List.Forall₂.nil)⟩

/-- Counterexample to C2 as stated: in `sEx` (a session with `cur_pos = 2`,
snapshots at indices 0 and 1, parser state `7`), a new token list whose first
token mismatches the previous one yields no usable snapshot — and the code
leaves the session completely untouched instead of resetting it: `cur_pos`
stays 2 (the claim demands 0) and the interactive parser keeps state `7`
(the claim demands a fresh parser). -/
theorem claim2_counterexample :
    max_matching_index sEx.cur_pos_to_parser_state sEx.prev_lexer_tokens [tokX] 0 none = none ∧
    restore_recent_parser_state sEx [tokX] = sEx ∧
    (restore_recent_parser_state sEx [tokX]).cur_pos = 2 ∧
    ¬(restore_recent_parser_state sEx [tokX]).cur_pos = 0 ∧
    (restore_recent_parser_state sEx [tokX]).interactive = 7 :=
  ⟨by decide, restore_recent_of_none sEx [tokX] (by decide), by decide, by decide, by decide⟩

/-- Claim C2 (amended): `_restore_recent_parser_state` picks the largest
index `j` within the `tokenEq`-common prefix of the previous and new token
lists that has a stored snapshot, restores snapshot `j` and sets
`cur_pos := j + 1`; when no such `j` exists (including a first-token
mismatch) the session is left entirely unchanged — there is no reset to the
initial state, and `cur_pos` keeps its previous value. -/
theorem claim2_restore_picks_largest (s : IPState σ) (tokens : List Token) :
    ((∀ m, m < matchedLen s.prev_lexer_tokens tokens → s.cur_pos_to_parser_state m = none) →
      restore_recent_parser_state s tokens = s) ∧
    (∀ m, m < matchedLen s.prev_lexer_tokens tokens →
      (s.cur_pos_to_parser_state m).isSome →
      (∀ m2, m < m2 → m2 < matchedLen s.prev_lexer_tokens tokens →
        s.cur_pos_to_parser_state m2 = none) →
      restore_recent_parser_state s tokens =
        restore_parser_state { s with cur_pos := m + 1 } m ∧
      (restore_recent_parser_state s tokens).cur_pos = m + 1) := by
  constructor
  · intro h
    apply restore_recent_of_none
    apply mmi_of_all_none
    intro m hm
    simpa using h m hm
  · intro m h1 h2 h3
    have hmmi : max_matching_index s.cur_pos_to_parser_state s.prev_lexer_tokens
        tokens 0 none = some m := by
      have := mmi_finds s.cur_pos_to_parser_state s.prev_lexer_tokens tokens 0 none m h1
        (by simpa using h2) (by intro m2 hm2 hm2b; simpa using h3 m2 hm2 hm2b)
      simpa using this
    refine ⟨restore_recent_of_some s tokens m hmmi, ?_⟩
    rw [restore_recent_of_some s tokens m hmmi]
    unfold restore_parser_state
    cases ({ s with cur_pos := m + 1 } : IPState σ).cur_pos_to_parser_state m <;> rfl

/-- Witness for the amended C2 at a concrete input: in `sEx`, the matching
prefix with `[tokA]` has length 1 and index 0 carries a snapshot, so the
restore step sets `cur_pos` to 1. -/
theorem claim2_witness :
    matchedLen sEx.prev_lexer_tokens [tokA] = 1 ∧
    (sEx.cur_pos_to_parser_state 0).isSome ∧
    (restore_recent_parser_state sEx [tokA]).cur_pos = 0 + 1 :=
  ⟨by decide, by decide,
    ((claim2_restore_picks_largest sEx [tokA]).2 0 (by decide) (by decide)
      (fun m2 h1 h2 => by
        have hml : matchedLen sEx.prev_lexer_tokens [tokA] = 1 := by decide
        omega)).2⟩

/-- Counterexample to C5 as stated: a fresh session whose single lexed token
is rejected ends the call with `cur_pos = 1` but no snapshot at index 0. -/
theorem claim5_counterexample :
    (get_acceptable_next_terminals pmRej toyLM (init_state pmRej) "a").2.cur_pos = 1 ∧
    (get_acceptable_next_terminals pmRej toyLM
      (init_state pmRej) "a").2.cur_pos_to_parser_state 0 = none := by
  constructor
  · decide
  · decide

/-- Claim C5 (amended): after a call's feed loop in which *no token is
rejected* (every remaining token feeds successfully), and provided every
index below the entry `cur_pos` already had a snapshot, every index
`i < cur_pos` has a snapshot in `cur_pos_to_parser_state`.  (A rejected
token falsifies the unrestricted claim: it advances `cur_pos` past an index
that never receives a snapshot — see the counterexample.) -/
theorem claim5_snapshots_cover_cur_pos (pm : ParserModel σ) (tokens : List Token)
    (s : IPState σ)
    (hpre : ∀ i, i < s.cur_pos → (s.cur_pos_to_parser_state i).isSome)
    (hok : feed_count pm s.interactive (tokens.drop s.cur_pos) =
      (tokens.drop s.cur_pos).length) :
    ∀ i, i < (parse_loop pm tokens tokens.length s).cur_pos →
      ((parse_loop pm tokens tokens.length s).cur_pos_to_parser_state i).isSome := by
  intro i hi
  have hfuel : tokens.length ≤ s.cur_pos + tokens.length := by omega
  have hcp := parse_loop_cur_pos pm tokens tokens.length s hfuel
  rw [hok, Nat.min_eq_right (by omega)] at hcp
  rw [hcp] at hi
  by_cases hlt : i < s.cur_pos
  · rw [parse_loop_snaps_lt pm tokens tokens.length s i hlt]
    exact hpre i hlt
  · exact parse_loop_snaps_isSome pm tokens tokens.length s hfuel i (by omega)
      (by rw [hok]; omega)

/-- Witness for the amended C5 at a concrete input: a fresh `pmA` session
feeding `[tokA]` successfully has a snapshot at every index below the final
`cur_pos = 1`. -/
theorem claim5_witness :
    feed_count pmA (init_state pmA).interactive
        (([tokA] : List Token).drop (init_state pmA).cur_pos) =
      (([tokA] : List Token).drop (init_state pmA).cur_pos).length ∧
    ((parse_loop pmA [tokA] ([tokA] : List Token).length
      (init_state pmA)).cur_pos_to_parser_state 0).isSome := by
  refine ⟨by decide, ?_⟩
  refine claim5_snapshots_cover_cur_pos pmA [tokA] (init_state pmA) ?_ (by decide) 0 (by decide)
  intro i hi
  have h0 : (init_state pmA).cur_pos = 0 := rfl
  omega

/-- Counterexample to C3 as stated: on a fresh session the empty buffer
lexes to an empty token list with the buffer fully consumed, and the call
does *not* return a ParseResult — `_get_remainder` evaluates
`parser_token_seq[-1]` on an empty list (an `IndexError`, modelled as
`none`) instead of returning the initial state's accepts with COMPLETE. -/
theorem claim3_counterexample :
    (get_acceptable_next_terminals pmB toyLM (init_state pmB) "").1 = none := by
  decide

/-- Claim C3 (amended): `get_acceptable_next_terminals` returns a
`ParseResult` exactly when the lexer left unconsumed characters
(`lexer_pos < len(buffer)`) or the cumulative `parser_token_seq` is
non-empty after the feed loop.  When neither holds — a fresh session whose
buffer is fully lexed to an empty token list, e.g. the empty string — the
remainder step fails instead of returning the initial accepts set. -/
theorem claim3_returns_result_iff (pm : ParserModel σ) (lm : LexerModel) (s : IPState σ)
    (code : String) :
    ((get_acceptable_next_terminals pm lm s code).1).isSome ↔
      ((lex_code lm code).2 < code.length ∨
        ((get_acceptable_next_terminals pm lm s code).2).parser_token_seq ≠ []) := by
  have hfst : (get_acceptable_next_terminals pm lm s code).1 =
      (get_remainder (advance_state pm lm s code) code).map
        (fun rc => ⟨(advance_state pm lm s code).cur_ac_terminals,
          (advance_state pm lm s code).next_ac_terminals, rc.2, rc.1, none⟩) := by
    rw [get_acceptable_eq]
  have hsnd : (get_acceptable_next_terminals pm lm s code).2 = advance_state pm lm s code := by
    rw [get_acceptable_eq]
  have hlex := advance_state_lexer_pos pm lm s code
  rw [hfst, hsnd]
  unfold get_remainder
  by_cases h : (advance_state pm lm s code).lexer_pos < code.length
  · rw [if_pos h]
    constructor
    · intro _; exact Or.inl (by rw [← hlex]; exact h)
    · intro _
      by_cases ht : (code.drop (advance_state pm lm s code).lexer_pos).dropWhile
          (fun c => c == ' ') = ""
      · simp [ht]
      · simp [ht]
  · rw [if_neg h]
    cases hlast : (advance_state pm lm s code).parser_token_seq.getLast? with
    | none =>
      have hseq : (advance_state pm lm s code).parser_token_seq = [] :=
        List.getLast?_eq_none_iff.mp hlast
      refine iff_of_false (by simp) ?_
      rintro (hc | hc)
      · rw [← hlex] at hc; omega
      · exact hc hseq
    | some tok =>
      refine iff_of_true (by simp) (Or.inr ?_)
      intro hc
      rw [hc] at hlast
      exact Option.noConfusion hlast

/-- Witness for the amended C3: there is no hypothesis to discharge, but
exercise the iff concretely — a fresh `pmB` session on buffer `"b"`
returns a result because the fed token makes `parser_token_seq` non-empty. -/
theorem claim3_witness :
    ((get_acceptable_next_terminals pmB toyLM (init_state pmB) "b").2.parser_token_seq ≠ []) ∧
    ((get_acceptable_next_terminals pmB toyLM (init_state pmB) "b").1).isSome :=
  ⟨by decide,
    (claim3_returns_result_iff pmB toyLM (init_state pmB) "b").mpr (Or.inr (by decide))⟩

theorem advance_state_unfold (pm : ParserModel σ) (lm : LexerModel) (s : IPState σ)
    (code : String) :
    advance_state pm lm s code =
      parse_loop pm (lex_code lm code).1 (lex_code lm code).1.length
        { restore_recent_parser_state { s with lexer_pos := (lex_code lm code).2 }
            (lex_code lm code).1 with
          prev_lexer_tokens := (lex_code lm code).1 } := rfl

/-- Core of the prefix-reuse argument, at the feed-loop level.  `Z1` is a
fresh session about to parse `toks` (first call); `MID` the session after
that call; `RES` the state the second call reaches after restoring the most
recent snapshot and recording the new token list `toks ++ rest`; `SL` the
end of the second call's feed loop; `Z2`/`SR` the corresponding fresh-session
run on `toks ++ rest`.  Provided the first call fed at least one token
successfully, the two runs agree on the accept sets and on the last parsed
token. -/
theorem prefix_reuse_loop (pm : ParserModel σ) (toks rest : List Token) (pB pB2 : Nat)
    (Z1 Z2 MID RES SL SR : IPState σ)
    (hZ1 : Z1 = ⟨none, none, 0, pB, [], pm.init, [], toks, fun _ => none⟩)
    (hZ2 : Z2 = ⟨none, none, 0, pB2, [], pm.init, [], toks ++ rest, fun _ => none⟩)
    (hMID : MID = parse_loop pm toks toks.length Z1)
    (hRES : RES = { restore_recent_parser_state { MID with lexer_pos := pB2 }
      (toks ++ rest) with prev_lexer_tokens := toks ++ rest })
    (hSL : SL = parse_loop pm (toks ++ rest) (toks ++ rest).length RES)
    (hSR : SR = parse_loop pm (toks ++ rest) (toks ++ rest).length Z2)
    (hK1 : 1 ≤ feed_count pm pm.init toks) :
    SL.cur_ac_terminals = SR.cur_ac_terminals ∧
    SL.next_ac_terminals = SR.next_ac_terminals ∧
    SL.lexer_pos = pB2 ∧ SR.lexer_pos = pB2 ∧
    SL.parser_token_seq.getLast? = SR.parser_token_seq.getLast? := by
  set K := feed_count pm pm.init toks with hKdef
  have hKle : K ≤ toks.length := feed_count_le pm toks pm.init
  -- fields of the two fresh states
  have hZ1c : Z1.cur_pos = 0 := by rw [hZ1]
  have hZ1i : Z1.interactive = pm.init := by rw [hZ1]
  have hZ1d : Z1.dedent_queue = [] := by rw [hZ1]
  have hZ1s : Z1.parser_token_seq = [] := by rw [hZ1]
  have hZ1sn : Z1.cur_pos_to_parser_state = fun _ => none := by rw [hZ1]
  have hZ1ca : Z1.cur_ac_terminals = none := by rw [hZ1]
  have hZ1na : Z1.next_ac_terminals = none := by rw [hZ1]
  have hZ2c : Z2.cur_pos = 0 := by rw [hZ2]
  have hZ2i : Z2.interactive = pm.init := by rw [hZ2]
  have hZ2d : Z2.dedent_queue = [] := by rw [hZ2]
  have hZ2s : Z2.parser_token_seq = [] := by rw [hZ2]
  have hZ2sn : Z2.cur_pos_to_parser_state = fun _ => none := by rw [hZ2]
  have hZ2ca : Z2.cur_ac_terminals = none := by rw [hZ2]
  have hZ2na : Z2.next_ac_terminals = none := by rw [hZ2]
  have hZ2lp : Z2.lexer_pos = pB2 := by rw [hZ2]
  -- the first call's loop
  have hfuel1 : toks.length ≤ Z1.cur_pos + toks.length := by omega
  have hdrop1 : toks.drop Z1.cur_pos = toks := by rw [hZ1c]; rfl
  have hcount1 : feed_count pm Z1.interactive (toks.drop Z1.cur_pos) = K := by
    rw [hZ1i, hdrop1]
  have hMIDprev : MID.prev_lexer_tokens = toks := by
    rw [hMID, parse_loop_prev, hZ1]
  have hMIDseq : MID.parser_token_seq = toks.take (K + 1) := by
    rw [hMID, parse_loop_seq pm toks toks.length Z1 hfuel1, hcount1, hdrop1, hZ1s,
      List.nil_append]
  have hMIDsome : ∀ i, i < K → (MID.cur_pos_to_parser_state i).isSome := by
    intro i hi
    rw [hMID]
    refine parse_loop_snaps_isSome pm toks toks.length Z1 hfuel1 i (by rw [hZ1c]; omega) ?_
    rw [hcount1, hZ1c]
    omega
  have hMIDnone : ∀ i, K ≤ i → MID.cur_pos_to_parser_state i = none := by
    intro i hi
    rw [hMID]
    refine parse_loop_snaps_none pm toks toks.length Z1 hfuel1 ?_ i ?_
    · intro j hj
      rw [hZ1sn]
    · rw [hcount1, hZ1c]
      omega
  have hMIDlast : MID.cur_pos_to_parser_state (K - 1) =
      some ⟨feed_state pm pm.init toks, MID.cur_ac_terminals, MID.next_ac_terminals,
        none, []⟩ := by
    have h := parse_loop_last_snap pm toks toks.length Z1 hfuel1
      (by rw [hcount1]; exact hK1)
    rw [hcount1, hdrop1, hZ1c, hZ1i, hZ1d, Nat.zero_add] at h
    rw [hMID]
    exact h
  -- the second call's restore step
  have hrr : restore_recent_parser_state { MID with lexer_pos := pB2 } (toks ++ rest) =
      restore_parser_state { { MID with lexer_pos := pB2 } with cur_pos := (K - 1) + 1 }
        (K - 1) := by
    apply restore_recent_of_some
    have hup_snaps : ({ MID with lexer_pos := pB2 } : IPState σ).cur_pos_to_parser_state =
        MID.cur_pos_to_parser_state := rfl
    have hup_prev : ({ MID with lexer_pos := pB2 } : IPState σ).prev_lexer_tokens =
        MID.prev_lexer_tokens := rfl
    rw [hup_snaps, hup_prev, hMIDprev]
    have h := mmi_finds MID.cur_pos_to_parser_state toks (toks ++ rest) 0 none (K - 1)
      (by rw [matchedLen_append_self]; omega)
      (by rw [Nat.zero_add]; exact hMIDsome (K - 1) (by omega))
      (by
        intro m2 h1 h2
        rw [matchedLen_append_self] at h2
        rw [Nat.zero_add]
        exact hMIDnone m2 (by omega))
    rwa [Nat.zero_add] at h
  have hlook : ({ { MID with lexer_pos := pB2 } with
      cur_pos := (K - 1) + 1 } : IPState σ).cur_pos_to_parser_state (K - 1) =
      some ⟨feed_state pm pm.init toks, MID.cur_ac_terminals, MID.next_ac_terminals,
        none, []⟩ := hMIDlast
  have hre := restore_parser_state_of_lookup _ _ _ hlook
  have hRESc : RES.cur_pos = (K - 1) + 1 := by
    rw [hRES]
    show (restore_recent_parser_state { MID with lexer_pos := pB2 }
      (toks ++ rest)).cur_pos = (K - 1) + 1
    rw [hrr, restore_parser_state_cur_pos]
  have hRESi : RES.interactive = feed_state pm pm.init toks := by
    rw [hRES]
    show (restore_recent_parser_state { MID with lexer_pos := pB2 }
      (toks ++ rest)).interactive = feed_state pm pm.init toks
    rw [hrr, hre]
  have hRESca : RES.cur_ac_terminals = MID.cur_ac_terminals := by
    rw [hRES]
    show (restore_recent_parser_state { MID with lexer_pos := pB2 }
      (toks ++ rest)).cur_ac_terminals = MID.cur_ac_terminals
    rw [hrr, hre]
  have hRESna : RES.next_ac_terminals = MID.next_ac_terminals := by
    rw [hRES]
    show (restore_recent_parser_state { MID with lexer_pos := pB2 }
      (toks ++ rest)).next_ac_terminals = MID.next_ac_terminals
    rw [hrr, hre]
  have hRESd : RES.dedent_queue = [] := by
    rw [hRES]
    show (restore_recent_parser_state { MID with lexer_pos := pB2 }
      (toks ++ rest)).dedent_queue = []
    rw [hrr, hre]
  have hRESsn : RES.cur_pos_to_parser_state = MID.cur_pos_to_parser_state := by
    rw [hRES]
    show (restore_recent_parser_state { MID with lexer_pos := pB2 }
      (toks ++ rest)).cur_pos_to_parser_state = MID.cur_pos_to_parser_state
    rw [hrr, restore_parser_state_snaps]
  have hRESlp : RES.lexer_pos = pB2 := by
    rw [hRES]
    show (restore_recent_parser_state { MID with lexer_pos := pB2 }
      (toks ++ rest)).lexer_pos = pB2
    rw [hrr, restore_parser_state_lexer_pos]
  have hRESseq : RES.parser_token_seq = toks.take (K + 1) := by
    rw [hRES]
    show (restore_recent_parser_state { MID with lexer_pos := pB2 }
      (toks ++ rest)).parser_token_seq = toks.take (K + 1)
    rw [hrr, restore_parser_state_seq]
    exact hMIDseq
  -- the fresh run on `toks ++ rest`, split at index K
  have hdrop2 : (toks ++ rest).drop Z2.cur_pos = toks ++ rest := by rw [hZ2c]; rfl
  have hcount2 : K ≤ feed_count pm Z2.interactive ((toks ++ rest).drop Z2.cur_pos) := by
    rw [hZ2i, hdrop2, hKdef]
    exact feed_count_append_le pm toks rest pm.init
  have hsplit := parse_loop_split pm (toks ++ rest) K (toks ++ rest).length Z2 hcount2
    (by rw [hZ2c, List.length_append]; omega)
    (by rw [List.length_append]; omega)
  rw [hZ2c, Nat.zero_add, List.take_append_of_le_length hKle] at hsplit
  -- the truncated fresh run
  have hlentake : (toks.take K).length = K := by rw [List.length_take]; omega
  have hfuelT : (toks.take K).length ≤ Z2.cur_pos + K := by rw [hlentake]; omega
  have hdropT : (toks.take K).drop Z2.cur_pos = toks.take K := by rw [hZ2c]; rfl
  have hcountT : feed_count pm Z2.interactive ((toks.take K).drop Z2.cur_pos) = K := by
    rw [hZ2i, hdropT, hKdef]
    exact feed_count_take pm toks pm.init
  set TFK := parse_loop pm (toks.take K) K Z2 with hTFKdef
  have t_cur : TFK.cur_pos = K := by
    rw [hTFKdef, parse_loop_cur_pos pm (toks.take K) K Z2 hfuelT, hcountT, hdropT,
      hlentake, hZ2c, Nat.zero_add, Nat.min_eq_right (by omega)]
  have t_int : TFK.interactive = feed_state pm pm.init (toks.take K) := by
    rw [hTFKdef, parse_loop_interactive pm (toks.take K) K Z2 hfuelT, hZ2i, hdropT]
  have t_lex : TFK.lexer_pos = pB2 := by
    rw [hTFKdef, parse_loop_lexer_pos, hZ2lp]
  have t_ded : TFK.dedent_queue = [] := by
    rw [hTFKdef, parse_loop_dedent, hZ2d]
  have t_seq : TFK.parser_token_seq = toks.take K := by
    rw [hTFKdef, parse_loop_seq pm (toks.take K) K Z2 hfuelT, hcountT, hdropT, hZ2s,
      List.nil_append, List.take_take, Nat.min_eq_right (by omega)]
  have t_none : ∀ i, K ≤ i → TFK.cur_pos_to_parser_state i = none := by
    intro i hi
    rw [hTFKdef]
    refine parse_loop_snaps_none pm (toks.take K) K Z2 hfuelT ?_ i ?_
    · intro j hj
      rw [hZ2sn]
    · rw [hcountT, hZ2c]
      omega
  have t_last : TFK.cur_pos_to_parser_state (K - 1) =
      some ⟨feed_state pm pm.init (toks.take K), TFK.cur_ac_terminals,
        TFK.next_ac_terminals, none, []⟩ := by
    have h := parse_loop_last_snap pm (toks.take K) K Z2 hfuelT
      (by rw [hcountT]; exact hK1)
    rw [hcountT, hdropT, hZ2c, hZ2i, hZ2d, Nat.zero_add] at h
    rw [hTFKdef]
    exact h
  -- transport the stored snapshots from the first call to the truncated fresh run
  have hmidk : ∀ i, i < K → MID.cur_pos_to_parser_state i =
      (parse_loop pm (toks.take K) K Z1).cur_pos_to_parser_state i := by
    intro i hi
    have h := parse_loop_append_snaps pm (toks.take K) (toks.drop K) K toks.length Z1 i
      (by rw [hlentake, hZ1c]; omega)
      (by rw [List.take_append_drop, hZ1c]; omega)
      (by rw [hlentake]; omega)
    rw [List.take_append_drop] at h
    rw [hMID]
    exact h
  have hcongr1 := parse_loop_congr pm (toks.take K) K Z1 Z2
    (by rw [hZ1c, hZ2c]) (by rw [hZ1i, hZ2i]) (by rw [hZ1ca, hZ2ca])
    (by rw [hZ1na, hZ2na]) (by rw [hZ1d, hZ2d]) (by rw [hZ1sn, hZ2sn])
  have hsnapsEq : (parse_loop pm (toks.take K) K Z1).cur_pos_to_parser_state =
      TFK.cur_pos_to_parser_state := by
    rw [hTFKdef]
    exact hcongr1.2.2.2.2.2.1
  have hsnMIDTFK : MID.cur_pos_to_parser_state = TFK.cur_pos_to_parser_state := by
    funext i
    by_cases hi : i < K
    · rw [hmidk i hi, hsnapsEq]
    · rw [hMIDnone i (by omega), t_none i (by omega)]
  -- the snapshot the second call restores is the one the fresh run stores
  have hsnapEq : MID.cur_pos_to_parser_state (K - 1) = TFK.cur_pos_to_parser_state (K - 1) := by
    rw [hsnMIDTFK]
  rw [hMIDlast, t_last] at hsnapEq
  simp only [Option.some.injEq, Snapshot.mk.injEq, and_true] at hsnapEq
  obtain ⟨hfs, hca, hna⟩ := hsnapEq
  -- the fresh run equals: run the truncated part, then continue with full fuel
  have hSR2 : SR = parse_loop pm (toks ++ rest) (toks ++ rest).length TFK := by
    rw [hSR, hsplit, hTFKdef]
    apply parse_loop_fuel_irrel
    · rw [show (parse_loop pm (toks.take K) K Z2).cur_pos = K from t_cur,
        List.length_append]
      omega
    · omega
  -- the two continuations run in lockstep
  have hcongr2 := parse_loop_congr pm (toks ++ rest) (toks ++ rest).length RES TFK
    (by rw [hRESc, t_cur]; omega)
    (by rw [hRESi, t_int, hfs])
    (by rw [hRESca, hca])
    (by rw [hRESna, hna])
    (by rw [hRESd, t_ded])
    (by rw [hRESsn, hsnMIDTFK])
  obtain ⟨c1, c2, c3, c4, c5, c6, app, ha1, ha2, hane⟩ := hcongr2
  refine ⟨?_, ?_, ?_, ?_, ?_⟩
  · rw [hSL, hSR2]
    exact c3
  · rw [hSL, hSR2]
    exact c4
  · rw [hSL, parse_loop_lexer_pos, hRESlp]
  · rw [hSR, parse_loop_lexer_pos, hZ2lp]
  · rw [hSL, hSR2, ha1, ha2]
    by_cases happ : app = []
    · rw [happ, List.append_nil, List.append_nil, hRESseq, t_seq]
      have hKeq : K = (toks ++ rest).length := by
        by_contra hne
        have hlenK : K < (toks ++ rest).length := by
          rw [List.length_append]
          rw [List.length_append] at hne
          omega
        exact hane (by omega) (by rw [hRESc]; omega) happ
      have hrest0 : rest.length = 0 := by
        rw [List.length_append] at hKeq
        omega
      have hKtoks : K = toks.length := by
        rw [List.length_append] at hKeq
        omega
      rw [hKtoks, List.take_length toks, List.take_of_length_le (by omega)]
    · rw [List.getLast?_append_of_ne_nil _ happ, List.getLast?_append_of_ne_nil _ happ]

/-- Counterexample to C6 as stated: with the toy grammar `pmB` (accepting a
single `B`), `"a"` lexes to a strict token-boundary prefix of `"ab"`, yet
calling `advance("a")` then `advance("ab")` on one session differs from a
fresh `advance("ab")`: the first call rejects token `a` at index 0 and
advances `cur_pos` without a snapshot and without a reset, so the second
call skips token `a`, feeds `b` from the *initial* parser state and returns
`next_ac_terminals = some ["END"]`, remainder `"b"` — whereas a fresh
session rejects `a` immediately and returns `next_ac_terminals = none`,
remainder `"a"`. -/
theorem claim6_counterexample :
    (lex_code toyLM "ab").1 =
      (lex_code toyLM "a").1 ++ ((lex_code toyLM "ab").1.drop (lex_code toyLM "a").1.length) ∧
    (get_acceptable_next_terminals pmB toyLM
        ((get_acceptable_next_terminals pmB toyLM (init_state pmB) "a").2) "ab").1 ≠
      (get_acceptable_next_terminals pmB toyLM (init_state pmB) "ab").1 := by
  constructor
  · decide
  · decide

/-- Claim C6 (amended): prefix reuse equivalence.  If buffer `B` lexes to a
token-boundary prefix of `B2`'s tokens, and the first call either lexes `B`
to no tokens or successfully feeds at least its first token (equivalently,
`feed_count ≥ 1`; when the very first token is rejected the equivalence
fails — see the counterexample), then calling
`get_acceptable_next_terminals(B)` followed by
`get_acceptable_next_terminals(B2)` on one fresh session returns, for the
second call, the same ParseResult as `get_acceptable_next_terminals(B2)` on
a fresh session. -/
theorem claim6_prefix_reuse_equivalence (pm : ParserModel σ) (lm : LexerModel)
    (B B2 : String) (rest : List Token)
    (hext : (lex_code lm B2).1 = (lex_code lm B).1 ++ rest)
    (hfirst : (lex_code lm B).1 = [] ∨ 1 ≤ feed_count pm pm.init (lex_code lm B).1) :
    (get_acceptable_next_terminals pm lm
        ((get_acceptable_next_terminals pm lm (init_state pm) B).2) B2).1 =
      (get_acceptable_next_terminals pm lm (init_state pm) B2).1 := by
  have hsndB : (get_acceptable_next_terminals pm lm (init_state pm) B).2 =
      advance_state pm lm (init_state pm) B := by rw [get_acceptable_eq]
  rw [hsndB]
  rcases hfirst with hA | hK1
  · -- Case A: `B` lexes to no tokens, so the first call changed nothing the
    -- second call can observe.
    have h1 : advance_state pm lm (init_state pm) B =
        { init_state pm with
          lexer_pos := (lex_code lm B).2
          prev_lexer_tokens := (lex_code lm B).1 } := by
      rw [advance_state_of_prev_nil pm lm (init_state pm) B rfl, hA]
      rfl
    have h3 : advance_state pm lm
        ({ init_state pm with
          lexer_pos := (lex_code lm B).2
          prev_lexer_tokens := (lex_code lm B).1 } : IPState σ) B2 =
        advance_state pm lm (init_state pm) B2 := by
      rw [advance_state_of_prev_nil pm lm _ B2 hA,
        advance_state_of_prev_nil pm lm (init_state pm) B2 rfl]
    have h2 : get_acceptable_next_terminals pm lm (advance_state pm lm (init_state pm) B) B2 =
        get_acceptable_next_terminals pm lm (init_state pm) B2 := by
      rw [get_acceptable_eq pm lm (advance_state pm lm (init_state pm) B) B2,
        get_acceptable_eq pm lm (init_state pm) B2, h1, h3]
    exact congrArg Prod.fst h2
  · -- Case B: the first call fed at least one token, so the second call
    -- restores the matching snapshot and runs in lockstep with a fresh run.
    have hMIDeq : advance_state pm lm (init_state pm) B =
        parse_loop pm (lex_code lm B).1 (lex_code lm B).1.length
          ⟨none, none, 0, (lex_code lm B).2, [], pm.init, [], (lex_code lm B).1,
            fun _ => none⟩ :=
      advance_state_of_prev_nil pm lm (init_state pm) B rfl
    have hSLeq : advance_state pm lm (advance_state pm lm (init_state pm) B) B2 =
        parse_loop pm ((lex_code lm B).1 ++ rest) ((lex_code lm B).1 ++ rest).length
          { restore_recent_parser_state
              { advance_state pm lm (init_state pm) B with
                lexer_pos := (lex_code lm B2).2 } ((lex_code lm B).1 ++ rest) with
            prev_lexer_tokens := (lex_code lm B).1 ++ rest } := by
      rw [advance_state_unfold pm lm (advance_state pm lm (init_state pm) B) B2, hext]
    have hSReq : advance_state pm lm (init_state pm) B2 =
        parse_loop pm ((lex_code lm B).1 ++ rest) ((lex_code lm B).1 ++ rest).length
          ⟨none, none, 0, (lex_code lm B2).2, [], pm.init, [],
            (lex_code lm B).1 ++ rest, fun _ => none⟩ := by
      rw [advance_state_of_prev_nil pm lm (init_state pm) B2 rfl, hext]
      rfl
    have hpl := prefix_reuse_loop pm (lex_code lm B).1 rest (lex_code lm B).2
      (lex_code lm B2).2
      ⟨none, none, 0, (lex_code lm B).2, [], pm.init, [], (lex_code lm B).1, fun _ => none⟩
      ⟨none, none, 0, (lex_code lm B2).2, [], pm.init, [], (lex_code lm B).1 ++ rest,
        fun _ => none⟩
      (advance_state pm lm (init_state pm) B)
      { restore_recent_parser_state
          { advance_state pm lm (init_state pm) B with
            lexer_pos := (lex_code lm B2).2 } ((lex_code lm B).1 ++ rest) with
        prev_lexer_tokens := (lex_code lm B).1 ++ rest }
      (advance_state pm lm (advance_state pm lm (init_state pm) B) B2)
      (advance_state pm lm (init_state pm) B2)
      rfl rfl hMIDeq rfl hSLeq hSReq hK1
    obtain ⟨hca, hna, hlpL, hlpR, hlast⟩ := hpl
    rw [get_acceptable_eq pm lm (advance_state pm lm (init_state pm) B) B2,
      get_acceptable_eq pm lm (init_state pm) B2]
    have hrem : get_remainder (advance_state pm lm
          (advance_state pm lm (init_state pm) B) B2) B2 =
        get_remainder (advance_state pm lm (init_state pm) B2) B2 :=
      get_remainder_congr _ _ B2 (by rw [hlpL, hlpR]) hlast
    dsimp only
    rw [hrem, hca, hna]

/-- Witness for the amended C6 at a concrete input: with `pmA` and the toy
lexer, `"a"` lexes to a token-boundary prefix of `"ab"` and the first token
is accepted, so the session result on `"ab"` matches a fresh session. -/
theorem claim6_witness :
    ((lex_code toyLM "ab").1 = (lex_code toyLM "a").1 ++ [tokB1]) ∧
    (1 ≤ feed_count pmA pmA.init (lex_code toyLM "a").1) ∧
    (get_acceptable_next_terminals pmA toyLM
        ((get_acceptable_next_terminals pmA toyLM (init_state pmA) "a").2) "ab").1 =
      (get_acceptable_next_terminals pmA toyLM (init_state pmA) "ab").1 :=
  ⟨by decide, by decide,
    claim6_prefix_reuse_equivalence pmA toyLM "a" "ab" [tokB1] (by decide)
      (Or.inr (by decide))⟩

end Syncode
